import Mathlib

/-!
# Verification of the `rust-os` kernel heap allocator subsystem

Shallow embedding of `src/allocator.rs` (heap-window constants, `align_up`,
`Dummy`, `init_heap`) together with the three allocator strategies the module
declares (`bump`, `linked_list`, `fixed_size_block`).  Machine integers are
modelled as `Nat` with an explicit `% 2^64` where wrap-around matters;
pointers are numeric addresses; fallible operations return `Option`/`Except`.
-/

namespace RustOS

/-- Width of `usize` on the x86-64 target: machine words wrap modulo `2^64`. -/
def USIZE : Nat := 2 ^ 64

/-- `pub const HEAP_START: usize = 0x_4444_4444_0000;` (src/allocator.rs). -/
def HEAP_START : Nat := 0x444444440000

/-- `pub const HEAP_SIZE: usize = 100 * 1024;` (src/allocator.rs). -/
def HEAP_SIZE : Nat := 100 * 1024

/-- `fn align_up(addr: usize, align: usize) -> usize` from src/allocator.rs:
`(addr + align - 1) & !(align - 1)`.  The addition is `usize` arithmetic, so
it is taken modulo `2^64`; the Rust bitwise complement `!(align - 1)` of a
64-bit word is `2^64 - 1 - (align - 1)`, i.e. `2^64 - align` for `align ≥ 1`. -/
def align_up (addr align : Nat) : Nat :=
  ((addr + align - 1) % USIZE) &&& (USIZE - align)

/-! ## Arithmetic facts about `align_up` -/

lemma testBit_two_pow_sub_two_pow {k i : Nat} (hk : k ≤ 64) :
    (2 ^ 64 - 2 ^ k).testBit i = (decide (k ≤ i) && decide (i < 64)) := by
  have hsplit : 2 ^ 64 - 2 ^ k = (2 ^ (64 - k) - 1) <<< k := by
    rw [Nat.shiftLeft_eq, Nat.sub_mul, one_mul, ← pow_add]
    rw [Nat.sub_add_cancel hk]
  rw [hsplit, Nat.testBit_shiftLeft, Nat.testBit_two_pow_sub_one]
  rcases Nat.lt_or_ge i k with h | h
  · simp [Nat.not_le.mpr h]
  · have hiff : i - k < 64 - k ↔ i < 64 := by omega
    simp [h, hiff]

lemma land_mask_eq {x k : Nat} (hx : x < 2 ^ 64) (hk : k ≤ 64) :
    x &&& (2 ^ 64 - 2 ^ k) = 2 ^ k * (x / 2 ^ k) := by
  apply Nat.eq_of_testBit_eq
  intro i
  have hrhs : 2 ^ k * (x / 2 ^ k) = (x >>> k) <<< k := by
    rw [Nat.shiftLeft_eq, Nat.shiftRight_eq_div_pow, Nat.mul_comm]
  rw [Nat.testBit_land, testBit_two_pow_sub_two_pow hk, hrhs,
    Nat.testBit_shiftLeft, Nat.testBit_shiftRight]
  rcases Nat.lt_or_ge i k with h | h
  · simp [Nat.not_le.mpr h]
  · have hik : k + (i - k) = i := by omega
    rcases Nat.lt_or_ge i 64 with h64 | h64
    · simp [h, hik, h64]
    · have : x.testBit i = false := by
        apply Nat.testBit_eq_false_of_lt
        calc x < 2 ^ 64 := hx
        _ ≤ 2 ^ i := Nat.pow_le_pow_right (by norm_num) h64
      simp [hik, this]

/-- The core characterisation: under the no-overflow side condition,
`align_up addr (2^k)` is `2^k * ⌈addr / 2^k⌉` computed the Rust way. -/
lemma align_up_eq {addr k : Nat} (hk : k ≤ 64)
    (hov : addr + 2 ^ k - 1 < 2 ^ 64) :
    align_up addr (2 ^ k) = 2 ^ k * ((addr + 2 ^ k - 1) / 2 ^ k) := by
  unfold align_up USIZE
  rw [Nat.mod_eq_of_lt hov]
  exact land_mask_eq hov hk

lemma align_up_dvd {addr k : Nat} (hk : k ≤ 64)
    (hov : addr + 2 ^ k - 1 < 2 ^ 64) :
    2 ^ k ∣ align_up addr (2 ^ k) := by
  rw [align_up_eq hk hov]
  exact Dvd.intro _ rfl

lemma align_up_ge {addr k : Nat} (hk : k ≤ 64)
    (hov : addr + 2 ^ k - 1 < 2 ^ 64) :
    addr ≤ align_up addr (2 ^ k) := by
  rw [align_up_eq hk hov]
  have hpos : 0 < 2 ^ k := Nat.pos_pow_of_pos k (by norm_num)
  have hdm := Nat.div_add_mod (addr + 2 ^ k - 1) (2 ^ k)
  have hmlt : (addr + 2 ^ k - 1) % 2 ^ k < 2 ^ k := Nat.mod_lt _ hpos
  set q := (addr + 2 ^ k - 1) / 2 ^ k with hq
  set r := (addr + 2 ^ k - 1) % 2 ^ k with hr
  have : 2 ^ k * q + r = addr + 2 ^ k - 1 := hdm
  omega

lemma align_up_lt {addr k : Nat} (hk : k ≤ 64)
    (hov : addr + 2 ^ k - 1 < 2 ^ 64) :
    align_up addr (2 ^ k) < addr + 2 ^ k := by
  rw [align_up_eq hk hov]
  have hpos : 0 < 2 ^ k := Nat.pos_pow_of_pos k (by norm_num)
  have hdm := Nat.div_add_mod (addr + 2 ^ k - 1) (2 ^ k)
  have hmlt : (addr + 2 ^ k - 1) % 2 ^ k < 2 ^ k := Nat.mod_lt _ hpos
  set q := (addr + 2 ^ k - 1) / 2 ^ k with hq
  set r := (addr + 2 ^ k - 1) % 2 ^ k with hr
  omega

lemma align_up_least {addr k j : Nat} (hk : k ≤ 64)
    (hov : addr + 2 ^ k - 1 < 2 ^ 64)
    (hj : addr ≤ 2 ^ k * j) :
    align_up addr (2 ^ k) ≤ 2 ^ k * j := by
  rw [align_up_eq hk hov]
  have hpos : 0 < 2 ^ k := Nat.pos_pow_of_pos k (by norm_num)
  apply Nat.mul_le_mul_left
  rw [Nat.div_le_iff_le_mul_add_pred hpos]
  omega

lemma align_up_mod {addr k : Nat} (hk : k ≤ 64)
    (hov : addr + 2 ^ k - 1 < 2 ^ 64) :
    align_up addr (2 ^ k) % 2 ^ k = 0 := by
  obtain ⟨c, hc⟩ := align_up_dvd hk hov
  rw [hc, Nat.mul_mod_right]

/-! ## The `Dummy` allocator (src/allocator.rs)

`alloc` returns `null_mut()` unconditionally; `dealloc` panics.  A returned
pointer is modelled as `Option Nat` with `none` for the null pointer, and a
panicking call as `Option Unit` with `none` for the panic. -/

/-- `Layout`: the size/alignment pair of `core::alloc::Layout`. -/
structure Layout where
  size : Nat
  align : Nat
deriving DecidableEq

namespace Dummy

/-- `unsafe fn alloc(&self, layout: Layout) -> *mut u8 { null_mut() }`. -/
def alloc (_layout : Layout) : Option Nat :=
  none

/-- `unsafe fn dealloc(&self, ptr, layout)` always panics
(`"dealloc should be never called"`); a panic yields no normal return. -/
def dealloc (_ptr : Nat) (_layout : Layout) : Option Unit :=
  none

end Dummy

/-! ## Allocator strategies

`src/allocator.rs` declares `pub mod bump`, `pub mod linked_list` and
`pub mod fixed_size_block`, but those module files are not part of the
source tree given here; the strategies are therefore modelled from the
spec (§4.5–§4.7), using the source's `align_up` for alignment rounding. -/

/-- A free region of the linked-list allocator: base address and byte size. -/
structure Region where
  addr : Nat
  size : Nat
deriving DecidableEq

/-- Modelled from the spec: a free-list node holds `{size, next-node
reference}` — two 8-byte words on x86-64, so 16 bytes is the minimum
leftover that can hold "a future node". -/
def NODE_SIZE : Nat := 16

namespace LinkedListAllocator

/-- The linked-list allocator state: the list of free regions, head first. -/
abbrev FreeList := List Region

/-- Modelled from the spec (§4.6/§4.3): the allocator is initialised over the
heap byte range, i.e. one free region covering the whole window. -/
def init (start size : Nat) : FreeList :=
  [⟨start, size⟩]

/-- Modelled from the spec (§4.6 `allocate`): first-fit scan; a region
qualifies if, after alignment adjustment, the remaining space covers the
request; leftover space large enough for a future node is split off and
reinserted, otherwise wasted; the matching node is unlinked. -/
def alloc (l : FreeList) (size align : Nat) : Option (Nat × FreeList) :=
  match l with
  | [] => none
  | r :: rest =>
    let astart := align_up r.addr align
    if astart + size ≤ r.addr + r.size then
      let excess := r.addr + r.size - (astart + size)
      some (astart,
        if NODE_SIZE ≤ excess then ⟨astart + size, excess⟩ :: rest else rest)
    else
      match alloc rest size align with
      | some (p, rest') => some (p, r :: rest')
      | none => none

/-- Modelled from the spec (§4.6 `deallocate`): push a new free node
describing the block onto the list front; no coalescing. -/
def dealloc (l : FreeList) (ptr size : Nat) : FreeList :=
  ⟨ptr, size⟩ :: l

end LinkedListAllocator

/-- Modelled from the spec (§4.5): bump allocator state
`{next_free, live_count}` over the window `[heap_start, heap_end)`. -/
structure BumpAllocator where
  heap_start : Nat
  heap_end : Nat
  next : Nat
  allocations : Nat
deriving DecidableEq

namespace BumpAllocator

/-- The bump allocator freshly initialised over `[start, start+size)`. -/
def init (start size : Nat) : BumpAllocator :=
  ⟨start, start + size, start, 0⟩

/-- Modelled from the spec (§4.5 `allocate`): round `next_free` up to
`align`; fail if the allocation end exceeds the window end; else advance
`next_free` past the block and increment `live_count`. -/
def alloc (a : BumpAllocator) (size align : Nat) : Option (Nat × BumpAllocator) :=
  let astart := align_up a.next align
  if astart + size ≤ a.heap_end then
    some (astart, { a with next := astart + size, allocations := a.allocations + 1 })
  else
    none

/-- Modelled from the spec (§4.5 `deallocate`): decrement `live_count`; if
it reaches zero, reset `next_free` to the window start. -/
def dealloc (a : BumpAllocator) : BumpAllocator :=
  if a.allocations - 1 = 0 then
    { a with allocations := 0, next := a.heap_start }
  else
    { a with allocations := a.allocations - 1 }

end BumpAllocator

/-- Modelled from the spec (§4.7): the fixed power-of-two size-class ladder
`8 … 2048`. -/
def BLOCK_SIZES : List Nat := [8, 16, 32, 64, 128, 256, 512, 1024, 2048]

/-- Modelled from the spec (§4.7): per-class free lists (a list of block
base addresses for each size class) plus a linked-list fallback allocator. -/
structure FixedSizeBlockAllocator where
  list_heads : List (List Nat)
  fallback : LinkedListAllocator.FreeList
deriving DecidableEq

namespace FixedSizeBlockAllocator

/-- `FixedSizeBlockAllocator::new()`: empty class lists, empty fallback —
the compile-time initial value of the `ALLOCATOR` static. -/
def new : FixedSizeBlockAllocator :=
  ⟨List.replicate BLOCK_SIZES.length [], []⟩

/-- `init(heap_start, heap_size)`: hand the whole byte range to the
fallback allocator. -/
def init (a : FixedSizeBlockAllocator) (start size : Nat) : FixedSizeBlockAllocator :=
  { a with fallback := LinkedListAllocator.init start size }

/-- Modelled from the spec (§4.7): select the smallest class
`≥ max(size, align)`; `none` for oversize requests that bypass the ladder. -/
def list_index (size align : Nat) : Option Nat :=
  BLOCK_SIZES.findIdx? (fun s => decide (max size align ≤ s))

/-- Modelled from the spec (§4.7 `allocate`): pop from the class's free list
if non-empty; else carve one class-sized, class-aligned block from the
fallback; oversize requests go to the fallback directly. -/
def alloc (a : FixedSizeBlockAllocator) (size align : Nat) :
    Option (Nat × FixedSizeBlockAllocator) :=
  match list_index size align with
  | some idx =>
    match a.list_heads.getD idx [] with
    | p :: rest => some (p, { a with list_heads := a.list_heads.set idx rest })
    | [] =>
      let bs := BLOCK_SIZES.getD idx 0
      match LinkedListAllocator.alloc a.fallback bs bs with
      | some (p, fb) => some (p, { a with fallback := fb })
      | none => none
  | none =>
    match LinkedListAllocator.alloc a.fallback size align with
    | some (p, fb) => some (p, { a with fallback := fb })
    | none => none

/-- Modelled from the spec (§4.7 `deallocate`): recompute the identical
class selection used at allocation time and push the block onto that
class's list; oversize blocks go back to the fallback. -/
def dealloc (a : FixedSizeBlockAllocator) (ptr size align : Nat) :
    FixedSizeBlockAllocator :=
  match list_index size align with
  | some idx =>
    { a with list_heads := a.list_heads.set idx (ptr :: a.list_heads.getD idx []) }
  | none =>
    { a with fallback := LinkedListAllocator.dealloc a.fallback ptr size }

end FixedSizeBlockAllocator

/-! ## Paging model and `init_heap` (src/allocator.rs) -/

/-- The error type of `Mapper::map_to`, as used by `init_heap`. -/
inductive MapToError where
  | FrameAllocationFailed
  | ParentEntryHugePage
  | PageAlreadyMapped
deriving DecidableEq

/-- A mapper state: the installed `(page, frame, flags)` translations. -/
abbrev MapperState := List (Nat × Nat × Nat)

/-- `PageTableFlags::PRESENT` bit. -/
def PRESENT : Nat := 1

/-- `PageTableFlags::WRITABLE` bit. -/
def WRITABLE : Nat := 2

/-- Modelled from the spec (§4.2, external paging collaborator specified at
its boundary): `map(page, frame, flags, frame_source)` installs
`page → frame`; mapping an already-mapped page is an error, surfaced not
silently ignored.  Intermediate page-table frames are below the granularity
of this model. -/
def map_to (m : MapperState) (page frame flags : Nat) :
    Except MapToError MapperState :=
  if m.any (fun e => e.1 = page) then .error .PageAlreadyMapped
  else .ok ((page, frame, flags) :: m)

/-- Modelled from the spec (§4.1): `allocate_frame() → frame | none` — the
next unused frame via a monotonic forward cursor, `none` when exhausted.
The state is the list of remaining usable frames. -/
def allocate_frame (f : List Nat) : Option Nat × List Nat :=
  match f with
  | [] => (none, [])
  | fr :: rest => (some fr, rest)

/-- `Page::<Size4KiB>::containing_address`: align the address down to its
4 KiB page base. -/
def page_containing (addr : Nat) : Nat :=
  addr / 4096 * 4096

/-- `Page::containing_address(heap_start)` for
`heap_start = VirtAddr::new(HEAP_START)`. -/
def heap_start_page : Nat :=
  page_containing HEAP_START

/-- `Page::containing_address(heap_end)` for
`heap_end = heap_start + HEAP_SIZE - 1`. -/
def heap_end_page : Nat :=
  page_containing (HEAP_START + HEAP_SIZE - 1)

/-- `Page::range_inclusive(heap_start_page, heap_end_page)`: the page bases
from `heap_start_page` to `heap_end_page` inclusive, in ascending order. -/
def page_range : List Nat :=
  (List.range ((heap_end_page - heap_start_page) / 4096 + 1)).map
    (fun i => heap_start_page + 4096 * i)

deriving instance DecidableEq for Except

/-- Outcome of `init_heap`: the returned `Result`, the mapper and frame
source states after the call, and the state of the global `ALLOCATOR`
static (which starts as `FixedSizeBlockAllocator::new()` and is initialised
over the heap window only after every page has been mapped). -/
structure InitHeapResult where
  result : Except MapToError Unit
  mapper : MapperState
  frames : List Nat
  globalAlloc : FixedSizeBlockAllocator
deriving DecidableEq

/-- The page-mapping loop of `init_heap`: for each page, obtain a frame
(`ok_or(FrameAllocationFailed)?`), then `map_to(page, frame,
PRESENT | WRITABLE, ...)?`; on success of the whole loop, run
`ALLOCATOR.lock().init(HEAP_START, HEAP_SIZE)`. -/
def init_heap_go (m : MapperState) (f : List Nat)
    (al : FixedSizeBlockAllocator) : List Nat → InitHeapResult
  | [] => ⟨.ok (), m, f, al.init HEAP_START HEAP_SIZE⟩
  | p :: rest =>
    match allocate_frame f with
    | (none, f') => ⟨.error .FrameAllocationFailed, m, f', al⟩
    | (some fr, f') =>
      match map_to m p fr (PRESENT ||| WRITABLE) with
      | .error e => ⟨.error e, m, f', al⟩
      | .ok m' => init_heap_go m' f' al rest

/-- `pub fn init_heap(mapper, frame_allocator) -> Result<(), MapToError>`
from src/allocator.rs, over the modelled mapper and frame source. -/
def init_heap (m : MapperState) (f : List Nat) : InitHeapResult :=
  init_heap_go m f FixedSizeBlockAllocator.new page_range

/-! ## Claim theorems: C5, C9, C10 -/

/-- C9: for every address `addr` and power-of-two alignment `2^k` such that
`addr + 2^k - 1` does not overflow a 64-bit word, `align_up addr (2^k)` is
the smallest multiple of `2^k` that is `≥ addr`; in particular it is
divisible by `2^k` and lies in `[addr, addr + 2^k)`. -/
theorem align_up_returns_least_aligned_address (addr k : Nat)
    (hov : addr + 2 ^ k - 1 < USIZE) :
    align_up addr (2 ^ k) % 2 ^ k = 0 ∧
    addr ≤ align_up addr (2 ^ k) ∧
    align_up addr (2 ^ k) < addr + 2 ^ k ∧
    ∀ m : Nat, 2 ^ k ∣ m → addr ≤ m → align_up addr (2 ^ k) ≤ m := by
  have hpos : 0 < 2 ^ k := Nat.pos_pow_of_pos k (by norm_num)
  have hk : k ≤ 64 := by
    by_contra hgt
    have h65 : 65 ≤ k := by omega
    have h1 : 2 ^ 65 ≤ 2 ^ k := Nat.pow_le_pow_right (by norm_num) h65
    have h2 : addr + 2 ^ k - 1 < 2 ^ 64 := hov
    have h3 : (2 : Nat) ^ 65 = 2 * 2 ^ 64 := by norm_num
    have h4 : (1 : Nat) ≤ 2 ^ 64 := Nat.one_le_two_pow
    omega
  have hov' : addr + 2 ^ k - 1 < 2 ^ 64 := hov
  refine ⟨align_up_mod hk hov', align_up_ge hk hov', align_up_lt hk hov', ?_⟩
  intro m hdvd hge
  obtain ⟨j, hj⟩ := hdvd
  subst hj
  exact align_up_least hk hov' hge

/-- Closed witness for `align_up_returns_least_aligned_address` at
`addr = 100`, `align = 2^3 = 8`. -/
theorem align_up_returns_least_aligned_address_witness :
    align_up 100 (2 ^ 3) % 2 ^ 3 = 0 ∧
    100 ≤ align_up 100 (2 ^ 3) ∧
    align_up 100 (2 ^ 3) < 100 + 2 ^ 3 ∧
    ∀ m : Nat, 2 ^ 3 ∣ m → 100 ≤ m → align_up 100 (2 ^ 3) ≤ m :=
  align_up_returns_least_aligned_address 100 3 (by norm_num [USIZE])

/-- C10: the `Dummy` allocator's `alloc` returns the null pointer for every
layout (unconditional failure) and every `dealloc` call panics (no normal
return); `Dummy` never satisfies an allocation request. -/
theorem dummy_never_allocates (layout : Layout) (ptr : Nat) :
    Dummy.alloc layout = none ∧ Dummy.dealloc ptr layout = none :=
  ⟨rfl, rfl⟩

/-- C5: the heap window is the compile-time constant range starting at
`0x4444_4444_0000` with size 102400 bytes, and the inclusive page range
computed by `init_heap` over it consists of exactly 25 distinct 4-KiB
pages. -/
theorem heap_window_constants_and_page_count :
    HEAP_START = 0x444444440000 ∧ HEAP_SIZE = 102400 ∧
    page_range.length = 25 ∧ page_range.Nodup ∧
    ∀ p ∈ page_range, p % 4096 = 0 := by
  refine ⟨rfl, rfl, ?_, ?_, ?_⟩ <;> decide

/-! ## Lemmas about `init_heap` -/

lemma init_heap_go_no_frame (m : MapperState) (al : FixedSizeBlockAllocator)
    (p : Nat) (rest : List Nat) :
    init_heap_go m [] al (p :: rest) =
      ⟨.error .FrameAllocationFailed, m, [], al⟩ :=
  rfl

lemma init_heap_go_already (m : MapperState) (f' : List Nat)
    (al : FixedSizeBlockAllocator) (p fr : Nat) (rest : List Nat)
    (h : m.any (fun e => decide (e.1 = p)) = true) :
    init_heap_go m (fr :: f') al (p :: rest) =
      ⟨.error .PageAlreadyMapped, m, f', al⟩ := by
  simp [init_heap_go, allocate_frame, map_to, h]

lemma init_heap_go_step (m : MapperState) (f' : List Nat)
    (al : FixedSizeBlockAllocator) (p fr : Nat) (rest : List Nat)
    (h : m.any (fun e => decide (e.1 = p)) = false) :
    init_heap_go m (fr :: f') al (p :: rest) =
      init_heap_go ((p, fr, PRESENT ||| WRITABLE) :: m) f' al rest := by
  simp [init_heap_go, allocate_frame, map_to, h]

lemma init_heap_go_mapper_mono (ps : List Nat) :
    ∀ m f al x, x ∈ m → x ∈ (init_heap_go m f al ps).mapper := by
  induction ps with
  | nil => intro m f al x hx; exact hx
  | cons p rest ih =>
    intro m f al x hx
    cases f with
    | nil => exact hx
    | cons fr f' =>
      cases hmem : m.any (fun e => decide (e.1 = p)) with
      | true =>
        rw [init_heap_go_already m f' al p fr rest hmem]
        exact hx
      | false =>
        rw [init_heap_go_step m f' al p fr rest hmem]
        exact ih _ _ _ _ (List.mem_cons_of_mem _ hx)

lemma init_heap_go_ok (ps : List Nat) :
    ∀ m f al, (init_heap_go m f al ps).result = .ok () →
      (init_heap_go m f al ps).globalAlloc = al.init HEAP_START HEAP_SIZE ∧
      ∀ p ∈ ps, ∃ fr, (p, fr, PRESENT ||| WRITABLE) ∈ (init_heap_go m f al ps).mapper := by
  induction ps with
  | nil =>
    intro m f al _
    exact ⟨rfl, by intro p hp; cases hp⟩
  | cons p rest ih =>
    intro m f al hok
    cases f with
    | nil => cases hok
    | cons fr f' =>
      cases hmem : m.any (fun e => decide (e.1 = p)) with
      | true =>
        rw [init_heap_go_already m f' al p fr rest hmem] at hok
        cases hok
      | false =>
        rw [init_heap_go_step m f' al p fr rest hmem] at hok ⊢
        obtain ⟨hal, hmap⟩ := ih _ _ _ hok
        refine ⟨hal, ?_⟩
        intro q hq
        rcases List.mem_cons.mp hq with hq | hq
        · subst hq
          exact ⟨fr, init_heap_go_mapper_mono rest _ _ _ _ (List.mem_cons_self _ _)⟩
        · exact hmap q hq

lemma init_heap_go_error (ps : List Nat) :
    ∀ m f al e, (init_heap_go m f al ps).result = .error e →
      (init_heap_go m f al ps).globalAlloc = al := by
  induction ps with
  | nil => intro m f al e he; cases he
  | cons p rest ih =>
    intro m f al e he
    cases f with
    | nil => rfl
    | cons fr f' =>
      cases hmem : m.any (fun e => decide (e.1 = p)) with
      | true =>
        rw [init_heap_go_already m f' al p fr rest hmem]
      | false =>
        rw [init_heap_go_step m f' al p fr rest hmem] at he ⊢
        exact ih _ _ _ _ he

lemma init_heap_go_frame_exhaust (ps : List Nat) :
    ∀ m f al, (∀ p ∈ ps, ∀ x ∈ m, ¬ (x.1 = p)) → ps.Nodup →
      f.length < ps.length →
      (init_heap_go m f al ps).result = .error .FrameAllocationFailed ∧
      ∀ fr fl, (ps.getD f.length 0, fr, fl) ∉ (init_heap_go m f al ps).mapper := by
  induction ps with
  | nil => intro m f al _ _ hlen; simp at hlen
  | cons p rest ih =>
    intro m f al hfresh hnd hlen
    cases f with
    | nil =>
      refine ⟨rfl, ?_⟩
      intro fr fl hmem
      exact hfresh p (List.mem_cons_self _ _) _ hmem rfl
    | cons fr0 f' =>
      have hnotany : m.any (fun e => decide (e.1 = p)) = false := by
        simp only [List.any_eq_false, decide_eq_true_eq]
        intro x hx
        exact hfresh p (List.mem_cons_self _ _) x hx
      rw [init_heap_go_step m f' al p fr0 rest hnotany]
      have hfresh' : ∀ q ∈ rest, ∀ x ∈ ((p, fr0, PRESENT ||| WRITABLE) :: m), ¬ (x.1 = q) := by
        intro q hq x hx
        rcases List.mem_cons.mp hx with hx | hx
        · subst hx
          intro hc
          have hpq : p = q := hc
          subst hpq
          exact (List.nodup_cons.mp hnd).1 hq
        · exact hfresh q (List.mem_cons_of_mem _ hq) x hx
      have hlen' : f'.length < rest.length := by
        simpa using Nat.lt_of_succ_lt_succ (by simpa using hlen)
      obtain ⟨h1, h2⟩ := ih _ f' al hfresh' (List.nodup_cons.mp hnd).2 hlen'
      exact ⟨h1, by simpa using h2⟩

/-! ## Claim theorems: C3 and C4 -/

/-- C3: `init_heap` computes the inclusive page range covering
`[HEAP_START, HEAP_START + HEAP_SIZE)` (conjuncts 1 and 2: the range is the
25 consecutive pages from the window start, and every window address's page
is in it); on success every page of the range has been mapped with
`PRESENT | WRITABLE` and the global allocator is initialised over the heap
byte range (conjunct 3); if a mapping step fails, the error is returned and
the global allocator is left in its uninitialised `new` state (conjunct 4). -/
theorem init_heap_maps_window_then_inits_allocator :
    page_range = (List.range 25).map (fun i => HEAP_START + 4096 * i) ∧
    (∀ a : Nat, HEAP_START ≤ a → a < HEAP_START + HEAP_SIZE →
      page_containing a ∈ page_range) ∧
    (∀ m f, (init_heap m f).result = .ok () →
      (∀ p ∈ page_range, ∃ fr, (p, fr, PRESENT ||| WRITABLE) ∈ (init_heap m f).mapper) ∧
      (init_heap m f).globalAlloc = FixedSizeBlockAllocator.new.init HEAP_START HEAP_SIZE) ∧
    (∀ m f e, (init_heap m f).result = .error e →
      (init_heap m f).globalAlloc = FixedSizeBlockAllocator.new) := by
  refine ⟨by decide, ?_, ?_, ?_⟩
  · intro a hlo hhi
    have hsz : HEAP_SIZE = 102400 := rfl
    obtain ⟨i, hi⟩ : ∃ i, a = HEAP_START + i := ⟨a - HEAP_START, by omega⟩
    have hilt : i < 102400 := by omega
    subst hi
    have hdiv : (HEAP_START + i) / 4096 = HEAP_START / 4096 + i / 4096 := by
      conv_lhs => rw [(by decide : HEAP_START = 4096 * (HEAP_START / 4096))]
      rw [Nat.mul_add_div (by norm_num)]
    have key : page_containing (HEAP_START + i) = HEAP_START + (i / 4096) * 4096 := by
      unfold page_containing
      rw [hdiv, Nat.add_mul]
      have hself : HEAP_START / 4096 * 4096 = HEAP_START := by decide
      omega
    rw [key]
    simp only [page_range, List.mem_map, List.mem_range]
    refine ⟨i / 4096, ?_, ?_⟩
    · have h25 : i / 4096 < 25 :=
        (Nat.div_lt_iff_lt_mul (by norm_num)).mpr (by omega)
      have hrange : (heap_end_page - heap_start_page) / 4096 + 1 = 25 := by decide
      omega
    · have hsp : heap_start_page = HEAP_START := by decide
      rw [hsp]
      ring
  · intro m f hok
    obtain ⟨hal, hmap⟩ := init_heap_go_ok page_range m f FixedSizeBlockAllocator.new hok
    exact ⟨hmap, hal⟩
  · intro m f e he
    exact init_heap_go_error page_range m f FixedSizeBlockAllocator.new e he

/-- Closed witness for `init_heap_maps_window_then_inits_allocator`:
running `init_heap` on an empty mapper with 25 available frames succeeds,
maps the first page present+writable, and initialises the allocator. -/
theorem init_heap_maps_window_witness :
    (∃ fr, (heap_start_page, fr, PRESENT ||| WRITABLE) ∈
      (init_heap [] (List.range 25)).mapper) ∧
    (init_heap [] (List.range 25)).globalAlloc =
      FixedSizeBlockAllocator.new.init HEAP_START HEAP_SIZE ∧
    page_containing (HEAP_START + 5000) ∈ page_range := by
  have h := init_heap_maps_window_then_inits_allocator
  have h3 := h.2.2.1 [] (List.range 25) (by decide)
  exact ⟨h3.1 heap_start_page (by decide), h3.2,
    h.2.1 (HEAP_START + 5000) (by omega) (by decide)⟩

/-- C4: if physical memory is exhausted before every heap page has a frame
(the frame source yields `none` for the page at index `f.length` of the
range), `init_heap` returns `FrameAllocationFailed` and that page is never
mapped. -/
theorem init_heap_frame_exhaustion (f : List Nat)
    (h : f.length < page_range.length) :
    (init_heap [] f).result = .error .FrameAllocationFailed ∧
    ∀ fr fl, (page_range.getD f.length 0, fr, fl) ∉ (init_heap [] f).mapper := by
  exact init_heap_go_frame_exhaust page_range [] f FixedSizeBlockAllocator.new
    (by intro p _ x hx; cases hx) (by decide) h

/-- Closed witness for `init_heap_frame_exhaustion`: with 3 frames for 25
pages, `init_heap` fails with `FrameAllocationFailed` and the fourth page is
unmapped. -/
theorem init_heap_frame_exhaustion_witness :
    (init_heap [] [90, 91, 92]).result = .error .FrameAllocationFailed ∧
    ∀ fr fl, (page_range.getD 3 0, fr, fl) ∉ (init_heap [] [90, 91, 92]).mapper :=
  init_heap_frame_exhaustion [90, 91, 92] (by decide)

/-! ## C6: the bump allocator returns to its initial state after a full free -/

/-- Run a sequence of `(size, align)` allocations on a bump allocator,
failing if any single allocation fails. -/
def BumpAllocator.allocMany (a : BumpAllocator) :
    List (Nat × Nat) → Option (List Nat × BumpAllocator)
  | [] => some ([], a)
  | (s, al) :: rest =>
    match a.alloc s al with
    | some (p, a') =>
      match a'.allocMany rest with
      | some (ps, a'') => some (p :: ps, a'')
      | none => none
    | none => none

/-- Deallocate `n` times (the bump `deallocate` ignores its pointer). -/
def BumpAllocator.deallocN (a : BumpAllocator) : Nat → BumpAllocator
  | 0 => a
  | n + 1 => a.dealloc.deallocN n

lemma BumpAllocator.alloc_some {a a' : BumpAllocator} {s al p : Nat}
    (h : a.alloc s al = some (p, a')) :
    p = align_up a.next al ∧ p + s ≤ a.heap_end ∧
    a' = { a with next := p + s, allocations := a.allocations + 1 } := by
  simp only [BumpAllocator.alloc] at h
  split at h
  · rcases Option.some.inj h with h'
    cases h'
    exact ⟨rfl, by assumption, rfl⟩
  · cases h

lemma BumpAllocator.allocMany_some :
    ∀ (reqs : List (Nat × Nat)) (a a' : BumpAllocator) (ps : List Nat),
      a.allocMany reqs = some (ps, a') →
      a'.allocations = a.allocations + reqs.length ∧
      a'.heap_start = a.heap_start ∧ a'.heap_end = a.heap_end := by
  intro reqs
  induction reqs with
  | nil =>
    intro a a' ps h
    rcases Option.some.inj h with h'
    cases h'
    exact ⟨rfl, rfl, rfl⟩
  | cons r rest ih =>
    intro a a' ps h
    obtain ⟨s, al⟩ := r
    cases h1 : a.alloc s al with
    | none =>
      simp only [BumpAllocator.allocMany, h1] at h
      exact Option.noConfusion h
    | some pa =>
      obtain ⟨p, a1⟩ := pa
      cases h2 : a1.allocMany rest with
      | none =>
        simp only [BumpAllocator.allocMany, h1, h2] at h
        exact Option.noConfusion h
      | some pr =>
        obtain ⟨ps1, a2⟩ := pr
        simp only [BumpAllocator.allocMany, h1, h2] at h
        rcases Option.some.inj h with h'
        injection h' with hps ha
        subst ha
        obtain ⟨-, -, ha1⟩ := BumpAllocator.alloc_some h1
        obtain ⟨hn, hs, he⟩ := ih a1 a2 ps1 h2
        subst ha1
        refine ⟨?_, by rw [hs], by rw [he]⟩
        rw [hn]
        show a.allocations + 1 + rest.length = a.allocations + (rest.length + 1)
        omega

lemma BumpAllocator.deallocN_drain :
    ∀ (n : Nat) (a : BumpAllocator), a.allocations = n → 1 ≤ n →
      a.deallocN n = { a with allocations := 0, next := a.heap_start } := by
  intro n
  induction n with
  | zero => intro a _ h1; cases h1
  | succ m ih =>
    intro a hcount _
    show a.dealloc.deallocN m = _
    cases m with
    | zero =>
      show a.dealloc = _
      simp [BumpAllocator.dealloc, hcount]
    | succ k =>
      have hd : a.dealloc = { a with allocations := k + 1 } := by
        simp [BumpAllocator.dealloc, hcount]
      rw [hd, ih _ (by simp) (by omega)]

/-- C6: for every sequence of `N` successful bump allocations from the
freshly initialised window, `N` deallocations (in any order — bump
`deallocate` is order-insensitive) bring `live_count` to zero and reset
`next_free` to the window start: the state equals the fresh one. -/
theorem bump_alloc_all_free_all_resets (reqs : List (Nat × Nat))
    (ps : List Nat) (a : BumpAllocator)
    (h : (BumpAllocator.init HEAP_START HEAP_SIZE).allocMany reqs = some (ps, a)) :
    (a.deallocN reqs.length).allocations = 0 ∧
    (a.deallocN reqs.length).next = HEAP_START ∧
    a.deallocN reqs.length = BumpAllocator.init HEAP_START HEAP_SIZE := by
  obtain ⟨hn, hs, he⟩ := BumpAllocator.allocMany_some reqs _ a ps h
  simp only [BumpAllocator.init] at hn hs he
  cases hreq : reqs.length with
  | zero =>
    have hnil : reqs = [] := List.length_eq_zero.mp hreq
    subst hnil
    simp only [BumpAllocator.allocMany] at h
    rcases Option.some.inj h with h'
    injection h' with hps ha
    subst ha
    exact ⟨rfl, rfl, rfl⟩
  | succ m =>
    have hdrain := BumpAllocator.deallocN_drain (m + 1) a (by omega) (by omega)
    rw [hdrain]
    exact ⟨rfl, hs, by rw [hs, he]; rfl⟩

/-- Closed witness for `bump_alloc_all_free_all_resets`: two allocations
(8 bytes align 8, then 100 bytes align 16) followed by two frees restore the
fresh state. -/
theorem bump_alloc_all_free_all_resets_witness :
    ((⟨HEAP_START, HEAP_START + HEAP_SIZE, HEAP_START + 116, 2⟩ :
        BumpAllocator).deallocN 2).allocations = 0 ∧
    ((⟨HEAP_START, HEAP_START + HEAP_SIZE, HEAP_START + 116, 2⟩ :
        BumpAllocator).deallocN 2).next = HEAP_START ∧
    (⟨HEAP_START, HEAP_START + HEAP_SIZE, HEAP_START + 116, 2⟩ :
        BumpAllocator).deallocN 2 = BumpAllocator.init HEAP_START HEAP_SIZE :=
  bump_alloc_all_free_all_resets [(8, 8), (100, 16)]
    [HEAP_START, HEAP_START + 16]
    ⟨HEAP_START, HEAP_START + HEAP_SIZE, HEAP_START + 116, 2⟩ (by decide)

/-! ## C7: linked-list allocator reuses the just-freed block -/

lemma align_up_self {p k : Nat} (hov : p + 2 ^ k - 1 < 2 ^ 64)
    (hmod : p % 2 ^ k = 0) : align_up p (2 ^ k) = p := by
  have hk : k ≤ 64 := by
    by_contra hgt
    have h65 : 65 ≤ k := by omega
    have h1 : 2 ^ 65 ≤ 2 ^ k := Nat.pow_le_pow_right (by norm_num) h65
    have h3 : (2 : Nat) ^ 65 = 2 * 2 ^ 64 := by norm_num
    have h4 : (1 : Nat) ≤ 2 ^ 64 := Nat.one_le_two_pow
    omega
  have hdvd : 2 ^ k ∣ p := Nat.dvd_of_mod_eq_zero hmod
  refine le_antisymm ?_ (align_up_ge hk hov)
  have hmul : 2 ^ k * (p / 2 ^ k) = p := Nat.mul_div_cancel' hdvd
  calc align_up p (2 ^ k) ≤ 2 ^ k * (p / 2 ^ k) :=
        align_up_least hk hov (by rw [hmul])
    _ = p := hmul

lemma align_up_le_two_pow_63 {addr k : Nat} (haddr : addr ≤ 2 ^ 47)
    (hk : k ≤ 63) : align_up addr (2 ^ k) ≤ 2 ^ 63 := by
  have hpk : (2 : Nat) ^ k ≤ 2 ^ 63 := Nat.pow_le_pow_right (by norm_num) hk
  have hov : addr + 2 ^ k - 1 < 2 ^ 64 := by
    have : (2 : Nat) ^ 47 + 2 ^ 63 < 2 ^ 64 := by norm_num
    omega
  have hsplit : (2 : Nat) ^ k * 2 ^ (63 - k) = 2 ^ 63 := by
    rw [← pow_add]
    congr 1
    omega
  have h1 : addr ≤ 2 ^ k * 2 ^ (63 - k) := by
    rw [hsplit]
    have : (2 : Nat) ^ 47 ≤ 2 ^ 63 := by norm_num
    omega
  calc align_up addr (2 ^ k) ≤ 2 ^ k * 2 ^ (63 - k) :=
        align_up_least (by omega) hov h1
    _ = 2 ^ 63 := hsplit

lemma LinkedListAllocator.alloc_mem :
    ∀ (l : LinkedListAllocator.FreeList) (s al p : Nat) (l' : LinkedListAllocator.FreeList),
      LinkedListAllocator.alloc l s al = some (p, l') →
      ∃ r ∈ l, p = align_up r.addr al := by
  intro l
  induction l with
  | nil => intro s al p l' h; cases h
  | cons r rest ih =>
    intro s al p l' h
    simp only [LinkedListAllocator.alloc] at h
    split at h
    · rcases Option.some.inj h with h'
      injection h' with hp hl
      exact ⟨r, List.mem_cons_self _ _, hp.symm⟩
    · cases h2 : LinkedListAllocator.alloc rest s al with
      | none => rw [h2] at h; cases h
      | some pr =>
        obtain ⟨p1, rest'⟩ := pr
        rw [h2] at h
        rcases Option.some.inj h with h'
        injection h' with hp hl
        obtain ⟨r0, hr0, hpr0⟩ := ih s al p1 rest' h2
        exact ⟨r0, List.mem_cons_of_mem _ hr0, hp ▸ hpr0⟩

/-- C7: if the linked-list allocator serves a request of size `S` (alignment
`2^k`, `k ≤ 63`) from a free list whose regions lie inside the heap window,
then freeing that block and immediately re-allocating size `S` with no
intervening traffic returns the identical address (and leaves the free list
exactly as after the first allocation). -/
theorem linked_list_free_then_realloc_same_address
    (l : LinkedListAllocator.FreeList) (S k p : Nat)
    (l' : LinkedListAllocator.FreeList)
    (hwin : ∀ r ∈ l, r.addr + r.size ≤ HEAP_START + HEAP_SIZE)
    (hk : k ≤ 63)
    (h : LinkedListAllocator.alloc l S (2 ^ k) = some (p, l')) :
    LinkedListAllocator.alloc (LinkedListAllocator.dealloc l' p S) S (2 ^ k) =
      some (p, l') := by
  obtain ⟨r, hr, hp⟩ := LinkedListAllocator.alloc_mem l S (2 ^ k) p l' h
  have haddr : r.addr ≤ 2 ^ 47 := by
    have h1 := hwin r hr
    have h2 : HEAP_START + HEAP_SIZE ≤ 2 ^ 47 := by decide
    omega
  have hovr : r.addr + 2 ^ k - 1 < 2 ^ 64 := by
    have hpk : (2 : Nat) ^ k ≤ 2 ^ 63 := Nat.pow_le_pow_right (by norm_num) hk
    have : (2 : Nat) ^ 47 + 2 ^ 63 < 2 ^ 64 := by norm_num
    omega
  have hple : p ≤ 2 ^ 63 := hp ▸ align_up_le_two_pow_63 haddr hk
  have hpov : p + 2 ^ k - 1 < 2 ^ 64 := by
    have hpk : (2 : Nat) ^ k ≤ 2 ^ 63 := Nat.pow_le_pow_right (by norm_num) hk
    have h64 : (2 : Nat) ^ 63 + 2 ^ 63 = 2 ^ 64 := by norm_num
    have hkpos : (1 : Nat) ≤ 2 ^ k := Nat.one_le_two_pow
    omega
  have hmod : p % 2 ^ k = 0 := hp ▸ align_up_mod (by omega) hovr
  have hself : align_up p (2 ^ k) = p := align_up_self hpov hmod
  simp only [LinkedListAllocator.dealloc, LinkedListAllocator.alloc, hself]
  simp [Nat.sub_self, NODE_SIZE]

/-- Closed witness for `linked_list_free_then_realloc_same_address`: the
freshly initialised free list, `S = 24`, `align = 8`. -/
theorem linked_list_free_then_realloc_witness :
    LinkedListAllocator.alloc
      (LinkedListAllocator.dealloc
        [⟨HEAP_START + 24, HEAP_SIZE - 24⟩] HEAP_START 24) 24 (2 ^ 3) =
      some (HEAP_START, [⟨HEAP_START + 24, HEAP_SIZE - 24⟩]) :=
  linked_list_free_then_realloc_same_address
    (LinkedListAllocator.init HEAP_START HEAP_SIZE) 24 3 HEAP_START
    [⟨HEAP_START + 24, HEAP_SIZE - 24⟩]
    (by decide) (by norm_num) (by decide)

/-! ## C8: fixed-size-block warm allocate/deallocate cycles are steady -/

lemma getD_set_self {α : Type} (l : List α) (i : Nat) (x d : α)
    (h : i < l.length) : (l.set i x).getD i d = x := by
  rw [List.getD_eq_getElem?_getD, List.getElem?_set_self h]
  rfl

lemma set_getD_self {α : Type} (l : List α) (i : Nat) (d : α)
    (h : i < l.length) : l.set i (l.getD i d) = l := by
  rw [List.getD_eq_getElem l d h]
  apply List.ext_getElem?
  intro j
  rw [List.getElem?_set]
  split
  · rename_i hij
    subst hij
    simp [h]
  · rfl

lemma FixedSizeBlockAllocator.list_index_lt {s a idx : Nat}
    (h : FixedSizeBlockAllocator.list_index s a = some idx) :
    idx < BLOCK_SIZES.length := by
  unfold FixedSizeBlockAllocator.list_index at h
  exact (List.findIdx?_eq_some_iff_findIdx_eq.mp h).1

/-- C8: for any request whose `max(size, align)` fits the size-class ladder
(`list_index` selects class `idx`), `deallocate` recomputes the identical
class and pushes the freed block onto that class's list without touching the
fallback, and the warmed cycle is a fixpoint: re-allocating the same
size/align pops the very same block and returns the allocator to the exact
post-first-allocation state — no further fallback memory is consumed. -/
theorem fsb_warm_cycle_consumes_no_fallback
    (st st1 : FixedSizeBlockAllocator) (s a idx p : Nat)
    (hlen : st.list_heads.length = BLOCK_SIZES.length)
    (hidx : FixedSizeBlockAllocator.list_index s a = some idx)
    (h : st.alloc s a = some (p, st1)) :
    (st1.dealloc p s a).list_heads =
      st1.list_heads.set idx (p :: st1.list_heads.getD idx []) ∧
    (st1.dealloc p s a).fallback = st1.fallback ∧
    (st1.dealloc p s a).alloc s a = some (p, st1) := by
  have hlt : idx < st.list_heads.length :=
    hlen ▸ FixedSizeBlockAllocator.list_index_lt hidx
  simp only [FixedSizeBlockAllocator.alloc, hidx] at h
  cases hheads : st.list_heads.getD idx [] with
  | cons p0 rest =>
    rw [hheads] at h
    rcases Option.some.inj h with h'
    injection h' with hp hst
    subst hp
    subst hst
    have hgd : (st.list_heads.set idx rest).getD idx [] = rest :=
      getD_set_self _ _ _ _ hlt
    refine ⟨by simp only [FixedSizeBlockAllocator.dealloc, hidx],
      by simp only [FixedSizeBlockAllocator.dealloc, hidx], ?_⟩
    simp only [FixedSizeBlockAllocator.dealloc, hidx,
      FixedSizeBlockAllocator.alloc, hgd]
    have hlt2 : idx < ((st.list_heads.set idx rest).set idx (p0 :: rest)).length := by
      simpa using hlt
    rw [getD_set_self _ _ _ _ (by simpa using hlt)]
    simp only [List.set_set]
  | nil =>
    rw [hheads] at h
    cases hfb : LinkedListAllocator.alloc st.fallback
        (BLOCK_SIZES.getD idx 0) (BLOCK_SIZES.getD idx 0) with
    | none => rw [hfb] at h; cases h
    | some pfb =>
      obtain ⟨p1, fb⟩ := pfb
      rw [hfb] at h
      rcases Option.some.inj h with h'
      injection h' with hp hst
      subst hp
      subst hst
      refine ⟨by simp only [FixedSizeBlockAllocator.dealloc, hidx],
        by simp only [FixedSizeBlockAllocator.dealloc, hidx], ?_⟩
      simp only [FixedSizeBlockAllocator.dealloc, hidx,
        FixedSizeBlockAllocator.alloc, hheads]
      rw [getD_set_self _ _ _ _ hlt]
      have hempty : st.list_heads.set idx [] = st.list_heads := by
        have := set_getD_self st.list_heads idx ([] : List Nat) hlt
        rwa [hheads] at this
      simp only [List.set_set, hempty]

/-- Closed witness for `fsb_warm_cycle_consumes_no_fallback`: starting from
the freshly initialised allocator, an `allocate(8,8)` is carved from the
fallback; freeing and re-allocating `(8,8)` reuses the same block. -/
theorem fsb_warm_cycle_witness :
    ((FixedSizeBlockAllocator.new.init HEAP_START HEAP_SIZE).alloc 8 8 =
      some (HEAP_START,
        ⟨List.replicate 9 [], [⟨HEAP_START + 8, HEAP_SIZE - 8⟩]⟩)) ∧
    ((⟨List.replicate 9 [], [⟨HEAP_START + 8, HEAP_SIZE - 8⟩]⟩ :
        FixedSizeBlockAllocator).dealloc HEAP_START 8 8).alloc 8 8 =
      some (HEAP_START,
        ⟨List.replicate 9 [], [⟨HEAP_START + 8, HEAP_SIZE - 8⟩]⟩) :=
  ⟨by decide,
   (fsb_warm_cycle_consumes_no_fallback
      (FixedSizeBlockAllocator.new.init HEAP_START HEAP_SIZE)
      ⟨List.replicate 9 [], [⟨HEAP_START + 8, HEAP_SIZE - 8⟩]⟩
      8 8 0 HEAP_START (by decide) (by decide) (by decide)).2.2⟩

/-! ## C1: every strategy returns an aligned, in-window pointer -/

lemma HEAP_bound : HEAP_START + HEAP_SIZE ≤ 2 ^ 47 := by decide

lemma addr_no_overflow {addr k : Nat} (ha : addr ≤ 2 ^ 47) (hk : k ≤ 63) :
    addr + 2 ^ k - 1 < 2 ^ 64 := by
  have hpk : (2 : Nat) ^ k ≤ 2 ^ 63 := Nat.pow_le_pow_right (by norm_num) hk
  have : (2 : Nat) ^ 47 + 2 ^ 63 < 2 ^ 64 := by norm_num
  omega

lemma ll_alloc_aligned_in_window :
    ∀ (l : LinkedListAllocator.FreeList) (s k p : Nat)
      (l' : LinkedListAllocator.FreeList),
      (∀ r ∈ l, HEAP_START ≤ r.addr ∧ r.addr + r.size ≤ HEAP_START + HEAP_SIZE) →
      k ≤ 63 →
      LinkedListAllocator.alloc l s (2 ^ k) = some (p, l') →
      p % 2 ^ k = 0 ∧ HEAP_START ≤ p ∧ p + s ≤ HEAP_START + HEAP_SIZE := by
  intro l
  induction l with
  | nil => intro s k p l' _ _ h; cases h
  | cons r rest ih =>
    intro s k p l' hwin hk h
    simp only [LinkedListAllocator.alloc] at h
    split at h
    · rename_i hcond
      rcases Option.some.inj h with h'
      injection h' with hp hl
      subst hp
      obtain ⟨hr1, hr2⟩ := hwin r (List.mem_cons_self _ _)
      have haddr : r.addr ≤ 2 ^ 47 := le_trans (by omega) HEAP_bound
      have hov : r.addr + 2 ^ k - 1 < 2 ^ 64 := addr_no_overflow haddr hk
      exact ⟨align_up_mod (by omega) hov,
        le_trans hr1 (align_up_ge (by omega) hov), by omega⟩
    · cases h2 : LinkedListAllocator.alloc rest s (2 ^ k) with
      | none => rw [h2] at h; cases h
      | some pr =>
        obtain ⟨p1, rest'⟩ := pr
        rw [h2] at h
        rcases Option.some.inj h with h'
        injection h' with hp hl
        subst hp
        exact ih s k p1 rest'
          (fun r0 hr0 => hwin r0 (List.mem_cons_of_mem _ hr0)) hk h2

lemma BLOCK_SIZES_pow (idx : Nat) (h : idx < BLOCK_SIZES.length) :
    BLOCK_SIZES.getD idx 0 = 2 ^ (idx + 3) := by
  have h9 : idx < 9 := by simpa [BLOCK_SIZES] using h
  interval_cases idx <;> rfl

lemma FixedSizeBlockAllocator.list_index_spec {s a idx : Nat}
    (h : FixedSizeBlockAllocator.list_index s a = some idx) :
    s ≤ BLOCK_SIZES.getD idx 0 ∧ a ≤ BLOCK_SIZES.getD idx 0 := by
  unfold FixedSizeBlockAllocator.list_index at h
  obtain ⟨hlt, hfi⟩ := List.findIdx?_eq_some_iff_findIdx_eq.mp h
  have w : List.findIdx (fun s' => decide (max s a ≤ s')) BLOCK_SIZES <
      BLOCK_SIZES.length := by rw [hfi]; exact hlt
  have hpred := List.findIdx_getElem (w := w)
  rw [List.getD_eq_getElem _ _ hlt]
  have : max s a ≤ BLOCK_SIZES[idx] := by
    have heq : BLOCK_SIZES[List.findIdx (fun s' => decide (max s a ≤ s')) BLOCK_SIZES]
        = BLOCK_SIZES[idx] := by
      congr 1
    rw [heq] at hpred
    simpa using hpred
  exact ⟨le_trans (le_max_left _ _) this, le_trans (le_max_right _ _) this⟩

/-- Well-formedness of a fixed-size-block allocator state: the class list
vector has one entry per size class; every block on class `idx`'s list is
aligned to that class's (power-of-two) block size and its
class-sized byte range lies inside the heap window; every fallback region
lies inside the heap window. -/
def FixedSizeBlockAllocator.WF (st : FixedSizeBlockAllocator) : Prop :=
  st.list_heads.length = BLOCK_SIZES.length ∧
  (∀ idx, idx < BLOCK_SIZES.length →
    ∀ q ∈ st.list_heads.getD idx [], q % BLOCK_SIZES.getD idx 0 = 0 ∧
      HEAP_START ≤ q ∧ q + BLOCK_SIZES.getD idx 0 ≤ HEAP_START + HEAP_SIZE) ∧
  (∀ r ∈ st.fallback, HEAP_START ≤ r.addr ∧ r.addr + r.size ≤ HEAP_START + HEAP_SIZE)

lemma fsb_alloc_aligned_in_window
    (st st' : FixedSizeBlockAllocator) (s k p : Nat)
    (hwf : st.WF) (hk : k ≤ 63)
    (h : st.alloc s (2 ^ k) = some (p, st')) :
    p % 2 ^ k = 0 ∧ HEAP_START ≤ p ∧ p + s ≤ HEAP_START + HEAP_SIZE := by
  obtain ⟨hlen, hclass, hfb⟩ := hwf
  cases hidx : FixedSizeBlockAllocator.list_index s (2 ^ k) with
  | some idx =>
    have hlt : idx < BLOCK_SIZES.length :=
      FixedSizeBlockAllocator.list_index_lt hidx
    obtain ⟨hsle, hale⟩ := FixedSizeBlockAllocator.list_index_spec hidx
    have hbs : BLOCK_SIZES.getD idx 0 = 2 ^ (idx + 3) := BLOCK_SIZES_pow idx hlt
    have hkle : k ≤ idx + 3 := by
      have := hale
      rw [hbs] at this
      exact (Nat.pow_le_pow_iff_right (by norm_num)).mp this
    have hdvd_cls : 2 ^ k ∣ BLOCK_SIZES.getD idx 0 := by
      rw [hbs]
      exact pow_dvd_pow 2 hkle
    simp only [FixedSizeBlockAllocator.alloc, hidx] at h
    cases hheads : st.list_heads.getD idx [] with
    | cons p0 rest =>
      rw [hheads] at h
      rcases Option.some.inj h with h'
      injection h' with hp hst
      subst hp
      obtain ⟨hmod, hlo, hhi⟩ := hclass idx hlt p0 (hheads ▸ List.mem_cons_self _ _)
      refine ⟨?_, hlo, by omega⟩
      obtain ⟨c, hc⟩ := dvd_trans hdvd_cls (Nat.dvd_of_mod_eq_zero hmod)
      rw [hc, Nat.mul_mod_right]
    | nil =>
      rw [hheads] at h
      cases hfba : LinkedListAllocator.alloc st.fallback
          (BLOCK_SIZES.getD idx 0) (BLOCK_SIZES.getD idx 0) with
      | none => rw [hfba] at h; cases h
      | some pr =>
        obtain ⟨p1, fb⟩ := pr
        rw [hfba] at h
        rcases Option.some.inj h with h'
        injection h' with hp hst
        subst hp
        rw [hbs] at hfba
        have h9 : idx < 9 := by simpa [BLOCK_SIZES] using hlt
        obtain ⟨hmod, hlo, hhi⟩ :=
          ll_alloc_aligned_in_window st.fallback
            (2 ^ (idx + 3)) (idx + 3) p1 fb hfb (by omega) hfba
        refine ⟨?_, hlo, ?_⟩
        · obtain ⟨c, hc⟩ := dvd_trans (pow_dvd_pow 2 hkle)
            (Nat.dvd_of_mod_eq_zero hmod)
          rw [hc, Nat.mul_mod_right]
        · rw [hbs] at hsle
          omega
  | none =>
    simp only [FixedSizeBlockAllocator.alloc, hidx] at h
    cases hfba : LinkedListAllocator.alloc st.fallback s (2 ^ k) with
    | none => rw [hfba] at h; cases h
    | some pr =>
      obtain ⟨p1, fb⟩ := pr
      rw [hfba] at h
      rcases Option.some.inj h with h'
      injection h' with hp hst
      subst hp
      exact ll_alloc_aligned_in_window st.fallback
        s k p1 fb hfb hk hfba

/-- C1: for every `allocate(size, align)` with `size > 0` and `align = 2^k`
a power of two (`k ≤ 63`, any representable Rust alignment), whenever the
strategy returns a pointer, that pointer is `align`-aligned and its block
lies inside the heap window `[HEAP_START, HEAP_START + HEAP_SIZE)` — for
each of the Bump, Linked-List and Fixed-Size-Block strategies (each under
its reachable-state well-formedness assumptions). -/
theorem allocate_returns_aligned_pointer_inside_window :
    (∀ (st st' : BumpAllocator) (s k p : Nat),
      st.heap_start = HEAP_START → st.heap_end = HEAP_START + HEAP_SIZE →
      HEAP_START ≤ st.next → st.next ≤ HEAP_START + HEAP_SIZE →
      0 < s → k ≤ 63 →
      st.alloc s (2 ^ k) = some (p, st') →
      p % 2 ^ k = 0 ∧ HEAP_START ≤ p ∧ p < HEAP_START + HEAP_SIZE ∧
        p + s ≤ HEAP_START + HEAP_SIZE) ∧
    (∀ (l l' : LinkedListAllocator.FreeList) (s k p : Nat),
      (∀ r ∈ l, HEAP_START ≤ r.addr ∧ r.addr + r.size ≤ HEAP_START + HEAP_SIZE) →
      0 < s → k ≤ 63 →
      LinkedListAllocator.alloc l s (2 ^ k) = some (p, l') →
      p % 2 ^ k = 0 ∧ HEAP_START ≤ p ∧ p < HEAP_START + HEAP_SIZE ∧
        p + s ≤ HEAP_START + HEAP_SIZE) ∧
    (∀ (st st' : FixedSizeBlockAllocator) (s k p : Nat),
      st.WF → 0 < s → k ≤ 63 →
      st.alloc s (2 ^ k) = some (p, st') →
      p % 2 ^ k = 0 ∧ HEAP_START ≤ p ∧ p < HEAP_START + HEAP_SIZE ∧
        p + s ≤ HEAP_START + HEAP_SIZE) := by
  refine ⟨?_, ?_, ?_⟩
  · intro st st' s k p hhs hhe hlo hhi hs hk h
    simp only [BumpAllocator.alloc] at h
    split at h
    · rename_i hcond
      rcases Option.some.inj h with h'
      injection h' with hp hst
      subst hp
      have haddr : st.next ≤ 2 ^ 47 := le_trans hhi HEAP_bound
      have hov : st.next + 2 ^ k - 1 < 2 ^ 64 := addr_no_overflow haddr hk
      have hge := align_up_ge (k := k) (by omega) hov
      rw [hhe] at hcond
      exact ⟨align_up_mod (by omega) hov, le_trans hlo hge, by omega, by omega⟩
    · cases h
  · intro l l' s k p hwin hs hk h
    obtain ⟨h1, h2, h3⟩ :=
      ll_alloc_aligned_in_window l s k p l' hwin hk h
    exact ⟨h1, h2, by omega, h3⟩
  · intro st st' s k p hwf hs hk h
    obtain ⟨h1, h2, h3⟩ :=
      fsb_alloc_aligned_in_window st st' s k p hwf hk h
    exact ⟨h1, h2, by omega, h3⟩

/-- Closed witness for `allocate_returns_aligned_pointer_inside_window`:
each freshly initialised strategy serves a small request with an aligned,
in-window pointer. -/
theorem allocate_returns_aligned_pointer_witness :
    (HEAP_START % 2 ^ 3 = 0 ∧ HEAP_START ≤ HEAP_START ∧
      HEAP_START < HEAP_START + HEAP_SIZE ∧
      HEAP_START + 10 ≤ HEAP_START + HEAP_SIZE) ∧
    (HEAP_START % 2 ^ 4 = 0 ∧ HEAP_START ≤ HEAP_START ∧
      HEAP_START < HEAP_START + HEAP_SIZE ∧
      HEAP_START + 32 ≤ HEAP_START + HEAP_SIZE) ∧
    (HEAP_START % 2 ^ 3 = 0 ∧ HEAP_START ≤ HEAP_START ∧
      HEAP_START < HEAP_START + HEAP_SIZE ∧
      HEAP_START + 8 ≤ HEAP_START + HEAP_SIZE) := by
  obtain ⟨hb, hl, hf⟩ := allocate_returns_aligned_pointer_inside_window
  refine ⟨hb (BumpAllocator.init HEAP_START HEAP_SIZE)
    ⟨HEAP_START, HEAP_START + HEAP_SIZE, HEAP_START + 10, 1⟩
    10 3 HEAP_START rfl rfl (le_refl _) (by decide) (by norm_num)
    (by norm_num) (by decide), ?_, ?_⟩
  · exact hl (LinkedListAllocator.init HEAP_START HEAP_SIZE)
      [⟨HEAP_START + 32, HEAP_SIZE - 32⟩] 32 4 HEAP_START
      (by decide) (by norm_num) (by norm_num) (by decide)
  · exact hf (FixedSizeBlockAllocator.new.init HEAP_START HEAP_SIZE)
      ⟨List.replicate 9 [], [⟨HEAP_START + 8, HEAP_SIZE - 8⟩]⟩
      8 3 HEAP_START
      (by unfold FixedSizeBlockAllocator.WF; exact ⟨by decide, by decide, by decide⟩)
      (by norm_num) (by norm_num) (by decide)

/-! ## C2: live allocations are pairwise disjoint under every op sequence

A byte range is a `(base, length)` pair; the heap-exhaustion-free part of
the argument tracks, per strategy, the multiset of ranges owned by the free
structures together with the footprints of the live allocations, and shows
each operation either permutes that multiset or refines one range into
disjoint sub-ranges. -/

/-- Disjointness of two byte ranges (empty ranges are disjoint from all). -/
def rdisj (x y : Nat × Nat) : Prop :=
  x.1 + x.2 ≤ y.1 ∨ y.1 + y.2 ≤ x.1

/-- `x` is a sub-range of `y`. -/
def rsub (x y : Nat × Nat) : Prop :=
  y.1 ≤ x.1 ∧ x.1 + x.2 ≤ y.1 + y.2

/-- A byte range lies inside the heap window. -/
def rwin (x : Nat × Nat) : Prop :=
  HEAP_START ≤ x.1 ∧ x.1 + x.2 ≤ HEAP_START + HEAP_SIZE

/-- All ranges in the list are pairwise disjoint. -/
def PD (l : List (Nat × Nat)) : Prop :=
  l.Pairwise rdisj

instance : DecidableEq (Nat × Nat) := inferInstance

instance (x y : Nat × Nat) : Decidable (rdisj x y) := by
  unfold rdisj
  infer_instance

instance (l : List (Nat × Nat)) : Decidable (PD l) := by
  unfold PD
  infer_instance

lemma rdisj_symm : ∀ {x y : Nat × Nat}, rdisj x y → rdisj y x := by
  intro x y h
  rcases h with h | h
  · exact Or.inr h
  · exact Or.inl h

lemma rdisj_of_rsub {x y z : Nat × Nat} (hs : rsub x y) (hd : rdisj y z) :
    rdisj x z := by
  obtain ⟨h1, h2⟩ := hs
  rcases hd with h | h
  · exact Or.inl (by omega)
  · exact Or.inr (by omega)

lemma rwin_of_rsub {x y : Nat × Nat} (hs : rsub x y) (hw : rwin y) : rwin x := by
  obtain ⟨h1, h2⟩ := hs
  obtain ⟨h3, h4⟩ := hw
  exact ⟨by omega, by omega⟩

lemma rdisj_symmetric : Symmetric rdisj := fun _ _ h => rdisj_symm h

lemma PD_perm {l l' : List (Nat × Nat)} (hp : l.Perm l') (h : PD l) : PD l' :=
  (hp.pairwise_iff (fun {x y} h => rdisj_symm h)).mp h

lemma PD_insert_middle {A L : List (Nat × Nat)} {x : Nat × Nat}
    (h : PD (A ++ L)) (hx : ∀ z ∈ A ++ L, rdisj x z) : PD (A ++ x :: L) := by
  apply PD_perm (List.perm_middle).symm
  exact List.Pairwise.cons hx h

lemma PD_cons_head {l : List (Nat × Nat)} {x : Nat × Nat}
    (h : PD (x :: l)) : ∀ z ∈ l, rdisj x z :=
  fun z hz => (List.pairwise_cons.mp h).1 z hz

lemma PD_cons_tail {l : List (Nat × Nat)} {x : Nat × Nat}
    (h : PD (x :: l)) : PD l :=
  (List.pairwise_cons.mp h).2

lemma perm_get_eraseIdx {α : Type} :
    ∀ (l : List α) (i : Nat) (x : α), l[i]? = some x →
      l.Perm (x :: l.eraseIdx i) := by
  intro l
  induction l with
  | nil => intro i x h; cases h
  | cons y tl ih =>
    intro i x h
    cases i with
    | zero =>
      have hxy : y = x := by simpa using h
      subst hxy
      rfl
    | succ j =>
      have htl : tl.Perm (x :: tl.eraseIdx j) := ih j x (by simpa using h)
      exact (htl.cons y).trans (List.Perm.swap x y _)

/-- The byte range of a free region. -/
def rg (r : Region) : Nat × Nat := (r.addr, r.size)

lemma LinkedListAllocator.alloc_preserves_disjoint :
    ∀ (l : LinkedListAllocator.FreeList) (L : List (Nat × Nat)) (s k p : Nat)
      (l' : LinkedListAllocator.FreeList),
      (∀ r ∈ l, rwin (rg r)) →
      PD (l.map rg ++ L) →
      k ≤ 63 →
      LinkedListAllocator.alloc l s (2 ^ k) = some (p, l') →
      (∀ r ∈ l', rwin (rg r)) ∧ rwin (p, s) ∧ PD (l'.map rg ++ (p, s) :: L) := by
  intro l
  induction l with
  | nil => intro L s k p l' _ _ _ h; cases h
  | cons r rest ih =>
    intro L s k p l' hwin hpd hk h
    simp only [List.map_cons, List.cons_append] at hpd
    have hhead : ∀ z ∈ rest.map rg ++ L, rdisj (rg r) z := PD_cons_head hpd
    have htail : PD (rest.map rg ++ L) := PD_cons_tail hpd
    simp only [LinkedListAllocator.alloc] at h
    split at h
    · rename_i hcond
      rcases Option.some.inj h with h'
      injection h' with hp hl'
      subst hp
      subst hl'
      set q := align_up r.addr (2 ^ k) with hq
      obtain ⟨hr1, hr2⟩ := hwin r (List.mem_cons_self _ _)
      simp only [rg] at hr1 hr2
      have hov : r.addr + 2 ^ k - 1 < 2 ^ 64 :=
        addr_no_overflow (le_trans (by omega) HEAP_bound) hk
      have hge : r.addr ≤ q := align_up_ge (by omega) hov
      have hsub_blk : rsub (q, s) (rg r) := ⟨hge, hcond⟩
      have hdq : ∀ z ∈ rest.map rg ++ L, rdisj (q, s) z :=
        fun z hz => rdisj_of_rsub hsub_blk (hhead z hz)
      have hPD1 : PD (rest.map rg ++ (q, s) :: L) := PD_insert_middle htail hdq
      have hqwin : rwin (q, s) := by
        refine ⟨le_trans hr1 hge, ?_⟩
        show q + s ≤ HEAP_START + HEAP_SIZE
        omega
      by_cases hex : NODE_SIZE ≤ r.addr + r.size - (q + s)
      · simp only [if_pos hex]
        have hsub_ex : rsub (q + s, r.addr + r.size - (q + s)) (rg r) :=
          ⟨by show r.addr ≤ q + s; omega,
           by show q + s + (r.addr + r.size - (q + s)) ≤ r.addr + r.size; omega⟩
        refine ⟨?_, hqwin, ?_⟩
        · intro r0 hr0
          rcases List.mem_cons.mp hr0 with h0 | h0
          · subst h0
            exact rwin_of_rsub hsub_ex ⟨hr1, hr2⟩
          · exact hwin r0 (List.mem_cons_of_mem _ h0)
        · simp only [List.map_cons, List.cons_append]
          refine List.Pairwise.cons ?_ hPD1
          intro z hz
          rcases List.mem_append.mp hz with hz | hz
          · exact rdisj_of_rsub hsub_ex (hhead z (List.mem_append_left _ hz))
          · rcases List.mem_cons.mp hz with hz | hz
            · subst hz
              exact Or.inr (le_refl _)
            · exact rdisj_of_rsub hsub_ex (hhead z (List.mem_append_right _ hz))
      · simp only [if_neg hex]
        exact ⟨fun r0 hr0 => hwin r0 (List.mem_cons_of_mem _ hr0), hqwin, hPD1⟩
    · cases h2 : LinkedListAllocator.alloc rest s (2 ^ k) with
      | none => rw [h2] at h; cases h
      | some pr =>
        obtain ⟨p1, rest'⟩ := pr
        rw [h2] at h
        rcases Option.some.inj h with h'
        injection h' with hp hl'
        subst hp
        subst hl'
        have hpd' : PD (rest.map rg ++ rg r :: L) :=
          PD_perm List.perm_middle.symm hpd
        obtain ⟨hwin', hpwin, hpd''⟩ := ih (rg r :: L) s k p1 rest'
          (fun r0 hr0 => hwin r0 (List.mem_cons_of_mem _ hr0)) hpd' hk h2
        refine ⟨?_, hpwin, ?_⟩
        · intro r0 hr0
          rcases List.mem_cons.mp hr0 with h0 | h0
          · subst h0
            exact hwin r0 (List.mem_cons_self _ _)
          · exact hwin' r0 h0
        · have hswap : ((p1, s) :: rg r :: L).Perm (rg r :: (p1, s) :: L) :=
            List.Perm.swap _ _ _
          have h3 : PD (rest'.map rg ++ rg r :: (p1, s) :: L) :=
            PD_perm (List.Perm.append_left _ hswap) hpd''
          have h4 : PD (rg r :: (rest'.map rg ++ (p1, s) :: L)) :=
            PD_perm List.perm_middle h3
          simpa using h4

/-- A heap operation: an allocation request, or freeing the `i`-th currently
live allocation (so only pointers previously returned by `allocate`, with
their original size and alignment, are ever freed — the well-formed usage
required by the global façade). -/
inductive Op where
  | alloc (size align : Nat)
  | free (i : Nat)

/-- Well-formed requests: a Rust `Layout` alignment is a power of two
representable in `usize`. -/
def Op.WF : Op → Prop
  | .alloc _ a => ∃ k, k ≤ 63 ∧ a = 2 ^ k
  | .free _ => True

/-- The byte range `[ptr, ptr + size)` of a live allocation record
`(ptr, size, align)`. -/
def liveRange (b : Nat × Nat × Nat) : Nat × Nat := (b.1, b.2.1)

lemma map_eraseIdx_comm {α β : Type} (f : α → β) :
    ∀ (l : List α) (i : Nat), (l.eraseIdx i).map f = (l.map f).eraseIdx i := by
  intro l
  induction l with
  | nil => intro i; cases i <;> rfl
  | cons x tl ih =>
    intro i
    cases i with
    | zero => rfl
    | succ j => simpa using ih j

/-! ### Bump allocator: run and invariant -/

/-- Execute a sequence of operations against a bump allocator, tracking the
live allocations (failed allocations and out-of-range frees are no-ops). -/
def BumpAllocator.run (st : BumpAllocator) (live : List (Nat × Nat × Nat)) :
    List Op → BumpAllocator × List (Nat × Nat × Nat)
  | [] => (st, live)
  | Op.alloc s a :: ops =>
    match st.alloc s a with
    | some (p, st') => BumpAllocator.run st' ((p, s, a) :: live) ops
    | none => BumpAllocator.run st live ops
  | Op.free i :: ops =>
    match live[i]? with
    | some _ => BumpAllocator.run st.dealloc (live.eraseIdx i) ops
    | none => BumpAllocator.run st live ops

/-- Invariant tying a bump allocator state to its live allocations. -/
def BumpInv (st : BumpAllocator) (live : List (Nat × Nat × Nat)) : Prop :=
  st.heap_start = HEAP_START ∧ st.heap_end = HEAP_START + HEAP_SIZE ∧
  HEAP_START ≤ st.next ∧ st.next ≤ HEAP_START + HEAP_SIZE ∧
  st.allocations = live.length ∧
  (∀ b ∈ live, HEAP_START ≤ b.1 ∧ b.1 + b.2.1 ≤ st.next) ∧
  PD (live.map liveRange)

lemma BumpInv_alloc {st st' : BumpAllocator}
    {live : List (Nat × Nat × Nat)} {s k p : Nat}
    (hk : k ≤ 63) (hinv : BumpInv st live)
    (h : st.alloc s (2 ^ k) = some (p, st')) :
    BumpInv st' ((p, s, 2 ^ k) :: live) := by
  obtain ⟨h1, h2, h3, h4, h5, h6, h7⟩ := hinv
  obtain ⟨hp, hle, hst⟩ := BumpAllocator.alloc_some h
  subst hst
  have hov : st.next + 2 ^ k - 1 < 2 ^ 64 :=
    addr_no_overflow (le_trans h4 HEAP_bound) hk
  have hge : st.next ≤ p := by
    rw [hp]
    exact align_up_ge (by omega) hov
  rw [h2] at hle
  refine ⟨h1, h2, ?_, ?_, ?_, ?_, ?_⟩
  · show HEAP_START ≤ p + s
    omega
  · show p + s ≤ HEAP_START + HEAP_SIZE
    omega
  · show st.allocations + 1 = live.length + 1
    omega
  · intro b hb
    rcases List.mem_cons.mp hb with hb | hb
    · subst hb
      refine ⟨by show HEAP_START ≤ p; omega, ?_⟩
      show p + s ≤ p + s
      exact le_refl _
    · obtain ⟨hb1, hb2⟩ := h6 b hb
      refine ⟨hb1, ?_⟩
      show b.1 + b.2.1 ≤ p + s
      omega
  · simp only [List.map_cons]
    refine List.Pairwise.cons ?_ h7
    intro z hz
    obtain ⟨b, hb, hbz⟩ := List.mem_map.mp hz
    obtain ⟨hb1, hb2⟩ := h6 b hb
    right
    subst hbz
    show b.1 + b.2.1 ≤ p
    omega

lemma BumpInv_free {st : BumpAllocator} {live : List (Nat × Nat × Nat)}
    {i : Nat} {b : Nat × Nat × Nat}
    (hinv : BumpInv st live) (hget : live[i]? = some b) :
    BumpInv st.dealloc (live.eraseIdx i) := by
  obtain ⟨h1, h2, h3, h4, h5, h6, h7⟩ := hinv
  obtain ⟨hlt, -⟩ := List.getElem?_eq_some.mp hget
  have hlen : (live.eraseIdx i).length = live.length - 1 := by
    rw [List.length_eraseIdx, if_pos hlt]
  have hsub : (live.eraseIdx i).Sublist live := List.eraseIdx_sublist live i
  by_cases hz : st.allocations - 1 = 0
  · have hnil : live.eraseIdx i = [] := by
      apply List.length_eq_zero.mp
      omega
    rw [hnil]
    unfold BumpAllocator.dealloc
    rw [if_pos hz]
    refine ⟨h1, h2, ?_, ?_, rfl, ?_, ?_⟩
    · show HEAP_START ≤ st.heap_start
      omega
    · show st.heap_start ≤ HEAP_START + HEAP_SIZE
      omega
    · intro b hb
      cases hb
    · exact List.Pairwise.nil
  · unfold BumpAllocator.dealloc
    rw [if_neg hz]
    refine ⟨h1, h2, h3, h4, ?_, ?_, ?_⟩
    · show st.allocations - 1 = (live.eraseIdx i).length
      omega
    · intro b0 hb0
      exact h6 b0 (hsub.mem hb0)
    · exact h7.sublist ((List.eraseIdx_sublist live i).map liveRange)

lemma bump_run_alloc_eq (st : BumpAllocator)
    (live : List (Nat × Nat × Nat)) (s a : Nat) (ops : List Op) :
    BumpAllocator.run st live (Op.alloc s a :: ops) =
      match st.alloc s a with
      | some (p, st') => BumpAllocator.run st' ((p, s, a) :: live) ops
      | none => BumpAllocator.run st live ops := rfl

lemma bump_run_free_eq (st : BumpAllocator)
    (live : List (Nat × Nat × Nat)) (i : Nat) (ops : List Op) :
    BumpAllocator.run st live (Op.free i :: ops) =
      match live[i]? with
      | some _ => BumpAllocator.run st.dealloc (live.eraseIdx i) ops
      | none => BumpAllocator.run st live ops := rfl

lemma BumpInv_run : ∀ (ops : List Op) (st : BumpAllocator)
    (live : List (Nat × Nat × Nat)),
    (∀ op ∈ ops, op.WF) → BumpInv st live →
    BumpInv (BumpAllocator.run st live ops).1 (BumpAllocator.run st live ops).2 := by
  intro ops
  induction ops with
  | nil => intro st live _ hinv; exact hinv
  | cons op rest ih =>
    intro st live hwf hinv
    have hwfrest : ∀ op ∈ rest, op.WF :=
      fun o ho => hwf o (List.mem_cons_of_mem _ ho)
    cases op with
    | alloc s a =>
      obtain ⟨k, hk, ha⟩ := hwf (Op.alloc s a) (List.mem_cons_self _ _)
      subst ha
      rw [bump_run_alloc_eq]
      cases halloc : st.alloc s (2 ^ k) with
      | none => exact ih st live hwfrest hinv
      | some pst =>
        obtain ⟨p, st'⟩ := pst
        exact ih _ _ hwfrest (BumpInv_alloc hk hinv halloc)
    | free i =>
      rw [bump_run_free_eq]
      cases hget : live[i]? with
      | none => exact ih st live hwfrest hinv
      | some b => exact ih _ _ hwfrest (BumpInv_free hinv hget)

/-! ### Linked-list allocator: run and invariant -/

/-- Execute a sequence of operations against the linked-list allocator. -/
def LinkedListAllocator.run (l : LinkedListAllocator.FreeList)
    (live : List (Nat × Nat × Nat)) :
    List Op → LinkedListAllocator.FreeList × List (Nat × Nat × Nat)
  | [] => (l, live)
  | Op.alloc s a :: ops =>
    match LinkedListAllocator.alloc l s a with
    | some (p, l') => LinkedListAllocator.run l' ((p, s, a) :: live) ops
    | none => LinkedListAllocator.run l live ops
  | Op.free i :: ops =>
    match live[i]? with
    | some b =>
      LinkedListAllocator.run (LinkedListAllocator.dealloc l b.1 b.2.1)
        (live.eraseIdx i) ops
    | none => LinkedListAllocator.run l live ops

/-- Invariant tying a linked-list free list to its live allocations: all
regions and live blocks are in the window and mutually disjoint. -/
def LLInv (l : LinkedListAllocator.FreeList)
    (live : List (Nat × Nat × Nat)) : Prop :=
  (∀ r ∈ l, rwin (rg r)) ∧ (∀ b ∈ live, rwin (liveRange b)) ∧
  PD (l.map rg ++ live.map liveRange)

lemma LLInv_alloc {l l' : LinkedListAllocator.FreeList}
    {live : List (Nat × Nat × Nat)} {s k p : Nat}
    (hk : k ≤ 63) (hinv : LLInv l live)
    (h : LinkedListAllocator.alloc l s (2 ^ k) = some (p, l')) :
    LLInv l' ((p, s, 2 ^ k) :: live) := by
  obtain ⟨h1, h2, h3⟩ := hinv
  obtain ⟨hw', hpw, hpd⟩ := LinkedListAllocator.alloc_preserves_disjoint
    l (live.map liveRange) s k p l' h1 h3 hk h
  refine ⟨hw', ?_, ?_⟩
  · intro b hb
    rcases List.mem_cons.mp hb with hb | hb
    · subst hb
      exact hpw
    · exact h2 b hb
  · simp only [List.map_cons, liveRange]
    exact hpd

lemma LLInv_free {l : LinkedListAllocator.FreeList}
    {live : List (Nat × Nat × Nat)} {i : Nat} {b : Nat × Nat × Nat}
    (hinv : LLInv l live) (hget : live[i]? = some b) :
    LLInv (LinkedListAllocator.dealloc l b.1 b.2.1) (live.eraseIdx i) := by
  obtain ⟨h1, h2, h3⟩ := hinv
  have hmem : b ∈ live := by
    obtain ⟨hlt, heq⟩ := List.getElem?_eq_some.mp hget
    exact heq ▸ List.getElem_mem hlt
  have hperm : (live.map liveRange).Perm
      (liveRange b :: (live.eraseIdx i).map liveRange) := by
    rw [map_eraseIdx_comm]
    apply perm_get_eraseIdx
    rw [List.getElem?_map, hget]
    rfl
  refine ⟨?_, ?_, ?_⟩
  · intro r hr
    rcases List.mem_cons.mp hr with hr | hr
    · subst hr
      exact h2 b hmem
    · exact h1 r hr
  · intro b0 hb0
    exact h2 b0 ((List.eraseIdx_sublist live i).mem hb0)
  · show PD (liveRange b :: l.map rg ++ (live.eraseIdx i).map liveRange)
    refine PD_perm ?_ h3
    exact (List.Perm.append_left (l.map rg) hperm).trans List.perm_middle

lemma ll_run_alloc_eq (l : LinkedListAllocator.FreeList)
    (live : List (Nat × Nat × Nat)) (s a : Nat) (ops : List Op) :
    LinkedListAllocator.run l live (Op.alloc s a :: ops) =
      match LinkedListAllocator.alloc l s a with
      | some (p, l') => LinkedListAllocator.run l' ((p, s, a) :: live) ops
      | none => LinkedListAllocator.run l live ops := rfl

lemma ll_run_free_eq (l : LinkedListAllocator.FreeList)
    (live : List (Nat × Nat × Nat)) (i : Nat) (ops : List Op) :
    LinkedListAllocator.run l live (Op.free i :: ops) =
      match live[i]? with
      | some b =>
        LinkedListAllocator.run (LinkedListAllocator.dealloc l b.1 b.2.1)
          (live.eraseIdx i) ops
      | none => LinkedListAllocator.run l live ops := rfl

lemma LLInv_run : ∀ (ops : List Op) (l : LinkedListAllocator.FreeList)
    (live : List (Nat × Nat × Nat)),
    (∀ op ∈ ops, op.WF) → LLInv l live →
    LLInv (LinkedListAllocator.run l live ops).1
      (LinkedListAllocator.run l live ops).2 := by
  intro ops
  induction ops with
  | nil => intro l live _ hinv; exact hinv
  | cons op rest ih =>
    intro l live hwf hinv
    have hwfrest : ∀ op ∈ rest, op.WF :=
      fun o ho => hwf o (List.mem_cons_of_mem _ ho)
    cases op with
    | alloc s a =>
      obtain ⟨k, hk, ha⟩ := hwf (Op.alloc s a) (List.mem_cons_self _ _)
      subst ha
      rw [ll_run_alloc_eq]
      cases halloc : LinkedListAllocator.alloc l s (2 ^ k) with
      | none => exact ih l live hwfrest hinv
      | some pl =>
        obtain ⟨p, l'⟩ := pl
        exact ih _ _ hwfrest (LLInv_alloc hk hinv halloc)
    | free i =>
      rw [ll_run_free_eq]
      cases hget : live[i]? with
      | none => exact ih l live hwfrest hinv
      | some b => exact ih _ _ hwfrest (LLInv_free hinv hget)

/-! ### Fixed-size-block allocator: run and invariant -/

lemma perm_rotate {α : Type} (x : α) (A B C : List α) :
    (x :: (A ++ (B ++ C))).Perm (A ++ (B ++ x :: C)) := by
  have h1 : A ++ (B ++ x :: C) = (A ++ B) ++ x :: C :=
    (List.append_assoc _ _ _).symm
  have h2 : (x :: (A ++ (B ++ C))) = x :: ((A ++ B) ++ C) := by
    rw [List.append_assoc]
  rw [h1, h2]
  exact List.perm_middle.symm

lemma perm_swap_front {α : Type} (A B C : List α) :
    (A ++ (B ++ C)).Perm (B ++ (A ++ C)) := by
  rw [← List.append_assoc, ← List.append_assoc]
  exact List.Perm.append_right C List.perm_append_comm

/-- The byte ranges owned by the per-class free lists: each block address on
class `idx`'s list owns `BLOCK_SIZES[idx]` bytes. -/
def classBlocksGo : List (List Nat) → List Nat → List (Nat × Nat)
  | [], _ => []
  | _ :: _, [] => []
  | hd :: tl, bs :: bss => hd.map (fun q => (q, bs)) ++ classBlocksGo tl bss

/-- Byte ranges owned by all class free lists of the allocator. -/
def classBlocks (heads : List (List Nat)) : List (Nat × Nat) :=
  classBlocksGo heads BLOCK_SIZES

lemma classBlocksGo_push :
    ∀ (heads : List (List Nat)) (bss : List Nat) (idx p : Nat),
      idx < heads.length → idx < bss.length →
      (classBlocksGo (heads.set idx (p :: heads.getD idx [])) bss).Perm
        ((p, bss.getD idx 0) :: classBlocksGo heads bss) := by
  intro heads
  induction heads with
  | nil =>
    intro bss idx p h _
    exact absurd h (Nat.not_lt_zero idx)
  | cons hd tl ih =>
    intro bss idx p hh hb
    cases bss with
    | nil => exact absurd hb (Nat.not_lt_zero idx)
    | cons bs bss' =>
      cases idx with
      | zero => exact List.Perm.refl _
      | succ j =>
        have hih := ih bss' j p (by simpa using hh) (by simpa using hb)
        exact (List.Perm.append_left _ hih).trans List.perm_middle

/-- The footprint of a live allocation under the fixed-size-block strategy:
a class-sized block for ladder requests, the raw size for oversize ones. -/
def liveFoot (b : Nat × Nat × Nat) : Nat × Nat :=
  match FixedSizeBlockAllocator.list_index b.2.1 b.2.2 with
  | some idx => (b.1, BLOCK_SIZES.getD idx 0)
  | none => (b.1, b.2.1)

/-- Execute a sequence of operations against the fixed-size-block allocator. -/
def FixedSizeBlockAllocator.run (st : FixedSizeBlockAllocator)
    (live : List (Nat × Nat × Nat)) :
    List Op → FixedSizeBlockAllocator × List (Nat × Nat × Nat)
  | [] => (st, live)
  | Op.alloc s a :: ops =>
    match st.alloc s a with
    | some (p, st') => FixedSizeBlockAllocator.run st' ((p, s, a) :: live) ops
    | none => FixedSizeBlockAllocator.run st live ops
  | Op.free i :: ops =>
    match live[i]? with
    | some b =>
      FixedSizeBlockAllocator.run (st.dealloc b.1 b.2.1 b.2.2)
        (live.eraseIdx i) ops
    | none => FixedSizeBlockAllocator.run st live ops

/-- Invariant tying a fixed-size-block allocator state to its live
allocations: class blocks, fallback regions and live footprints all lie in
the heap window and are mutually disjoint. -/
def FSBInv (st : FixedSizeBlockAllocator)
    (live : List (Nat × Nat × Nat)) : Prop :=
  st.list_heads.length = BLOCK_SIZES.length ∧
  (∀ x ∈ classBlocks st.list_heads, rwin x) ∧
  (∀ r ∈ st.fallback, rwin (rg r)) ∧
  (∀ b ∈ live, rwin (liveFoot b)) ∧
  PD (classBlocks st.list_heads ++ (st.fallback.map rg ++ live.map liveFoot))

lemma FSBInv_alloc {st st' : FixedSizeBlockAllocator}
    {live : List (Nat × Nat × Nat)} {s k p : Nat}
    (hk : k ≤ 63) (hinv : FSBInv st live)
    (h : st.alloc s (2 ^ k) = some (p, st')) :
    FSBInv st' ((p, s, 2 ^ k) :: live) := by
  obtain ⟨hlen, hcw, hfw, hlw, hpd⟩ := hinv
  cases hidx : FixedSizeBlockAllocator.list_index s (2 ^ k) with
  | some idx =>
    have hlt : idx < BLOCK_SIZES.length :=
      FixedSizeBlockAllocator.list_index_lt hidx
    have hlt' : idx < st.list_heads.length := by rw [hlen]; exact hlt
    have hfoot : liveFoot (p, s, 2 ^ k) = (p, BLOCK_SIZES.getD idx 0) := by
      simp only [liveFoot, hidx]
    simp only [FixedSizeBlockAllocator.alloc, hidx] at h
    cases hheads : st.list_heads.getD idx [] with
    | cons p0 rest =>
      rw [hheads] at h
      rcases Option.some.inj h with h'
      injection h' with hp hst
      subst hp
      subst hst
      have e1 : (st.list_heads.set idx rest).getD idx [] = rest :=
        getD_set_self _ _ _ _ hlt'
      have e2 : st.list_heads.set idx (p0 :: rest) = st.list_heads := by
        have e := set_getD_self st.list_heads idx ([] : List Nat) hlt'
        rwa [hheads] at e
      have hperm : (classBlocks st.list_heads).Perm
          ((p0, BLOCK_SIZES.getD idx 0) ::
            classBlocks (st.list_heads.set idx rest)) := by
        have hpush := classBlocksGo_push (st.list_heads.set idx rest)
          BLOCK_SIZES idx p0 (by rw [List.length_set]; exact hlt') hlt
        rw [e1, List.set_set, e2] at hpush
        exact hpush
      refine ⟨?_, ?_, hfw, ?_, ?_⟩
      · show (st.list_heads.set idx rest).length = _
        rw [List.length_set]
        exact hlen
      · intro x hx
        apply hcw
        rw [hperm.mem_iff]
        exact List.mem_cons_of_mem _ hx
      · intro b hb
        rcases List.mem_cons.mp hb with hb | hb
        · subst hb
          rw [hfoot]
          apply hcw
          rw [hperm.mem_iff]
          exact List.mem_cons_self _ _
        · exact hlw b hb
      · show PD (classBlocks (st.list_heads.set idx rest) ++
          (st.fallback.map rg ++ ((p0, s, 2 ^ k) :: live).map liveFoot))
        simp only [List.map_cons, hfoot]
        refine PD_perm ?_ hpd
        refine (List.Perm.append_right _ hperm).trans ?_
        exact perm_rotate _ _ _ _
    | nil =>
      rw [hheads] at h
      cases hfba : LinkedListAllocator.alloc st.fallback
          (BLOCK_SIZES.getD idx 0) (BLOCK_SIZES.getD idx 0) with
      | none => rw [hfba] at h; cases h
      | some pr =>
        obtain ⟨p1, fb'⟩ := pr
        rw [hfba] at h
        rcases Option.some.inj h with h'
        injection h' with hp hst
        subst hp
        subst hst
        have h9 : idx < 9 := by simpa [BLOCK_SIZES] using hlt
        have hbs : BLOCK_SIZES.getD idx 0 = 2 ^ (idx + 3) :=
          BLOCK_SIZES_pow idx hlt
        rw [hbs] at hfba
        have hpd0 : PD (st.fallback.map rg ++
            (classBlocks st.list_heads ++ live.map liveFoot)) :=
          PD_perm (perm_swap_front _ _ _) hpd
        obtain ⟨hw', hpw, hpd'⟩ := LinkedListAllocator.alloc_preserves_disjoint
          st.fallback (classBlocks st.list_heads ++ live.map liveFoot)
          (2 ^ (idx + 3)) (idx + 3) p1 fb' hfw hpd0 (by omega) hfba
        refine ⟨hlen, hcw, hw', ?_, ?_⟩
        · intro b hb
          rcases List.mem_cons.mp hb with hb | hb
          · subst hb
            rw [hfoot, hbs]
            exact hpw
          · exact hlw b hb
        · show PD (classBlocks st.list_heads ++
            (fb'.map rg ++ ((p1, s, 2 ^ k) :: live).map liveFoot))
          simp only [List.map_cons, hfoot, hbs]
          refine PD_perm ?_ hpd'
          refine List.perm_middle.trans ?_
          refine (List.Perm.cons _ (perm_swap_front _ _ _)).trans ?_
          exact perm_rotate _ _ _ _
  | none =>
    have hfoot : liveFoot (p, s, 2 ^ k) = (p, s) := by
      simp only [liveFoot, hidx]
    simp only [FixedSizeBlockAllocator.alloc, hidx] at h
    cases hfba : LinkedListAllocator.alloc st.fallback s (2 ^ k) with
    | none => rw [hfba] at h; cases h
    | some pr =>
      obtain ⟨p1, fb'⟩ := pr
      rw [hfba] at h
      rcases Option.some.inj h with h'
      injection h' with hp hst
      subst hp
      subst hst
      have hpd0 : PD (st.fallback.map rg ++
          (classBlocks st.list_heads ++ live.map liveFoot)) :=
        PD_perm (perm_swap_front _ _ _) hpd
      obtain ⟨hw', hpw, hpd'⟩ := LinkedListAllocator.alloc_preserves_disjoint
        st.fallback (classBlocks st.list_heads ++ live.map liveFoot)
        s k p1 fb' hfw hpd0 hk hfba
      refine ⟨hlen, hcw, hw', ?_, ?_⟩
      · intro b hb
        rcases List.mem_cons.mp hb with hb | hb
        · subst hb
          rw [hfoot]
          exact hpw
        · exact hlw b hb
      · show PD (classBlocks st.list_heads ++
          (fb'.map rg ++ ((p1, s, 2 ^ k) :: live).map liveFoot))
        simp only [List.map_cons, hfoot]
        refine PD_perm ?_ hpd'
        refine List.perm_middle.trans ?_
        refine (List.Perm.cons _ (perm_swap_front _ _ _)).trans ?_
        exact perm_rotate _ _ _ _

lemma FSBInv_free {st : FixedSizeBlockAllocator}
    {live : List (Nat × Nat × Nat)} {i : Nat} {b : Nat × Nat × Nat}
    (hinv : FSBInv st live) (hget : live[i]? = some b) :
    FSBInv (st.dealloc b.1 b.2.1 b.2.2) (live.eraseIdx i) := by
  obtain ⟨hlen, hcw, hfw, hlw, hpd⟩ := hinv
  have hmem : b ∈ live := by
    obtain ⟨hlt, heq⟩ := List.getElem?_eq_some.mp hget
    exact heq ▸ List.getElem_mem hlt
  have hperm_live : (live.map liveFoot).Perm
      (liveFoot b :: (live.eraseIdx i).map liveFoot) := by
    rw [map_eraseIdx_comm]
    apply perm_get_eraseIdx
    rw [List.getElem?_map, hget]
    rfl
  cases hidx : FixedSizeBlockAllocator.list_index b.2.1 b.2.2 with
  | some idx =>
    have hlt : idx < BLOCK_SIZES.length :=
      FixedSizeBlockAllocator.list_index_lt hidx
    have hlt' : idx < st.list_heads.length := by rw [hlen]; exact hlt
    have hfoot : liveFoot b = (b.1, BLOCK_SIZES.getD idx 0) := by
      simp only [liveFoot, hidx]
    rw [hfoot] at hperm_live
    have hpushperm : (classBlocks
        (st.list_heads.set idx (b.1 :: st.list_heads.getD idx []))).Perm
        ((b.1, BLOCK_SIZES.getD idx 0) :: classBlocks st.list_heads) :=
      classBlocksGo_push st.list_heads BLOCK_SIZES idx b.1 hlt' hlt
    simp only [FixedSizeBlockAllocator.dealloc, hidx]
    refine ⟨?_, ?_, hfw, ?_, ?_⟩
    · show (st.list_heads.set idx _).length = _
      rw [List.length_set]
      exact hlen
    · intro x hx
      rw [hpushperm.mem_iff] at hx
      rcases List.mem_cons.mp hx with hx | hx
      · subst hx
        rw [← hfoot]
        exact hlw b hmem
      · exact hcw x hx
    · intro b0 hb0
      exact hlw b0 ((List.eraseIdx_sublist live i).mem hb0)
    · refine PD_perm ?_ hpd
      have s1 : (classBlocks st.list_heads ++
          (st.fallback.map rg ++ live.map liveFoot)).Perm
          (classBlocks st.list_heads ++ (st.fallback.map rg ++
            ((b.1, BLOCK_SIZES.getD idx 0) ::
              (live.eraseIdx i).map liveFoot))) :=
        List.Perm.append_left _ (List.Perm.append_left _ hperm_live)
      have s2 := (perm_rotate (b.1, BLOCK_SIZES.getD idx 0)
        (classBlocks st.list_heads) (st.fallback.map rg)
        ((live.eraseIdx i).map liveFoot)).symm
      have s3 : ((b.1, BLOCK_SIZES.getD idx 0) ::
          (classBlocks st.list_heads ++ (st.fallback.map rg ++
            (live.eraseIdx i).map liveFoot))).Perm
          (classBlocks (st.list_heads.set idx
              (b.1 :: st.list_heads.getD idx [])) ++
            (st.fallback.map rg ++ (live.eraseIdx i).map liveFoot)) :=
        List.Perm.append_right _ hpushperm.symm
      exact s1.trans (s2.trans s3)
  | none =>
    have hfoot : liveFoot b = (b.1, b.2.1) := by
      simp only [liveFoot, hidx]
    rw [hfoot] at hperm_live
    simp only [FixedSizeBlockAllocator.dealloc, hidx,
      LinkedListAllocator.dealloc]
    refine ⟨hlen, hcw, ?_, ?_, ?_⟩
    · intro r hr
      rcases List.mem_cons.mp hr with hr | hr
      · subst hr
        have hwb := hlw b hmem
        rw [hfoot] at hwb
        exact hwb
      · exact hfw r hr
    · intro b0 hb0
      exact hlw b0 ((List.eraseIdx_sublist live i).mem hb0)
    · refine PD_perm ?_ hpd
      have s1 : (classBlocks st.list_heads ++
          (st.fallback.map rg ++ live.map liveFoot)).Perm
          (classBlocks st.list_heads ++ (st.fallback.map rg ++
            ((b.1, b.2.1) :: (live.eraseIdx i).map liveFoot))) :=
        List.Perm.append_left _ (List.Perm.append_left _ hperm_live)
      have s2 : (classBlocks st.list_heads ++ (st.fallback.map rg ++
          ((b.1, b.2.1) :: (live.eraseIdx i).map liveFoot))).Perm
          (classBlocks st.list_heads ++ ((b.1, b.2.1) ::
            (st.fallback.map rg ++ (live.eraseIdx i).map liveFoot))) :=
        List.Perm.append_left _ List.perm_middle
      exact s1.trans s2

lemma fsb_run_alloc_eq (st : FixedSizeBlockAllocator)
    (live : List (Nat × Nat × Nat)) (s a : Nat) (ops : List Op) :
    FixedSizeBlockAllocator.run st live (Op.alloc s a :: ops) =
      match st.alloc s a with
      | some (p, st') => FixedSizeBlockAllocator.run st' ((p, s, a) :: live) ops
      | none => FixedSizeBlockAllocator.run st live ops := rfl

lemma fsb_run_free_eq (st : FixedSizeBlockAllocator)
    (live : List (Nat × Nat × Nat)) (i : Nat) (ops : List Op) :
    FixedSizeBlockAllocator.run st live (Op.free i :: ops) =
      match live[i]? with
      | some b =>
        FixedSizeBlockAllocator.run (st.dealloc b.1 b.2.1 b.2.2)
          (live.eraseIdx i) ops
      | none => FixedSizeBlockAllocator.run st live ops := rfl

lemma FSBInv_run : ∀ (ops : List Op) (st : FixedSizeBlockAllocator)
    (live : List (Nat × Nat × Nat)),
    (∀ op ∈ ops, op.WF) → FSBInv st live →
    FSBInv (FixedSizeBlockAllocator.run st live ops).1
      (FixedSizeBlockAllocator.run st live ops).2 := by
  intro ops
  induction ops with
  | nil => intro st live _ hinv; exact hinv
  | cons op rest ih =>
    intro st live hwf hinv
    have hwfrest : ∀ op ∈ rest, op.WF :=
      fun o ho => hwf o (List.mem_cons_of_mem _ ho)
    cases op with
    | alloc s a =>
      obtain ⟨k, hk, ha⟩ := hwf (Op.alloc s a) (List.mem_cons_self _ _)
      subst ha
      rw [fsb_run_alloc_eq]
      cases halloc : st.alloc s (2 ^ k) with
      | none => exact ih st live hwfrest hinv
      | some pst =>
        obtain ⟨p, st'⟩ := pst
        exact ih _ _ hwfrest (FSBInv_alloc hk hinv halloc)
    | free i =>
      rw [fsb_run_free_eq]
      cases hget : live[i]? with
      | none => exact ih st live hwfrest hinv
      | some b => exact ih _ _ hwfrest (FSBInv_free hinv hget)

lemma rsub_liveRange_liveFoot (b : Nat × Nat × Nat) :
    rsub (liveRange b) (liveFoot b) := by
  unfold liveFoot
  cases hidx : FixedSizeBlockAllocator.list_index b.2.1 b.2.2 with
  | some idx =>
    obtain ⟨hs, -⟩ := FixedSizeBlockAllocator.list_index_spec hidx
    refine ⟨le_refl _, ?_⟩
    show b.1 + b.2.1 ≤ b.1 + BLOCK_SIZES.getD idx 0
    omega
  | none => exact ⟨le_refl _, le_refl _⟩

lemma PD_live_of_PD_foot {live : List (Nat × Nat × Nat)}
    (h : PD (live.map liveFoot)) : PD (live.map liveRange) := by
  unfold PD at h ⊢
  rw [List.pairwise_map] at h ⊢
  refine h.imp ?_
  intro a b hab
  exact rdisj_symm (rdisj_of_rsub (rsub_liveRange_liveFoot b)
    (rdisj_symm (rdisj_of_rsub (rsub_liveRange_liveFoot a) hab)))

lemma BumpInv_initial : BumpInv (BumpAllocator.init HEAP_START HEAP_SIZE) [] := by
  refine ⟨rfl, rfl, le_refl _, ?_, rfl, ?_, List.Pairwise.nil⟩
  · show HEAP_START ≤ HEAP_START + HEAP_SIZE
    omega
  · intro b hb
    cases hb

lemma LLInv_initial : LLInv (LinkedListAllocator.init HEAP_START HEAP_SIZE) [] := by
  refine ⟨?_, ?_, ?_⟩
  · intro r hr
    rcases List.mem_cons.mp hr with hr | hr
    · subst hr
      exact ⟨le_refl _, le_refl _⟩
    · cases hr
  · intro b hb
    cases hb
  · refine List.Pairwise.cons ?_ List.Pairwise.nil
    intro z hz
    cases hz

lemma FSBInv_initial :
    FSBInv (FixedSizeBlockAllocator.new.init HEAP_START HEAP_SIZE) [] := by
  have hcb : classBlocks (List.replicate BLOCK_SIZES.length ([] : List Nat)) =
      [] := by decide
  refine ⟨by decide, ?_, ?_, ?_, ?_⟩
  · intro x hx
    have he : (FixedSizeBlockAllocator.new.init HEAP_START HEAP_SIZE).list_heads =
        List.replicate BLOCK_SIZES.length [] := rfl
    rw [he, hcb] at hx
    cases hx
  · intro r hr
    rcases List.mem_cons.mp hr with hr | hr
    · subst hr
      exact ⟨le_refl _, le_refl _⟩
    · cases hr
  · intro b hb
    cases hb
  · show PD (classBlocks (List.replicate BLOCK_SIZES.length []) ++ _)
    rw [hcb]
    refine List.Pairwise.cons ?_ List.Pairwise.nil
    intro z hz
    cases hz

/-- C2: under every finite sequence of allocate/deallocate operations with
well-formed requests (power-of-two alignments) and well-formed frees (only
live pointers, with their original size/alignment), the byte ranges of the
allocations that are simultaneously live are pairwise disjoint — for each
of the Bump, Linked-List and Fixed-Size-Block strategies started on the
freshly initialised heap window. -/
theorem live_allocations_are_pairwise_disjoint :
    (∀ ops : List Op, (∀ op ∈ ops, op.WF) →
      PD (((BumpAllocator.init HEAP_START HEAP_SIZE).run [] ops).2.map
        liveRange)) ∧
    (∀ ops : List Op, (∀ op ∈ ops, op.WF) →
      PD ((LinkedListAllocator.run
        (LinkedListAllocator.init HEAP_START HEAP_SIZE) [] ops).2.map
        liveRange)) ∧
    (∀ ops : List Op, (∀ op ∈ ops, op.WF) →
      PD (((FixedSizeBlockAllocator.new.init HEAP_START HEAP_SIZE).run
        [] ops).2.map liveRange)) := by
  refine ⟨?_, ?_, ?_⟩
  · intro ops hwf
    obtain ⟨-, -, -, -, -, -, h7⟩ :=
      BumpInv_run ops (BumpAllocator.init HEAP_START HEAP_SIZE) [] hwf
        BumpInv_initial
    exact h7
  · intro ops hwf
    obtain ⟨-, -, h3⟩ :=
      LLInv_run ops (LinkedListAllocator.init HEAP_START HEAP_SIZE) [] hwf
        LLInv_initial
    exact h3.sublist (List.sublist_append_right _ _)
  · intro ops hwf
    obtain ⟨-, -, -, -, h5⟩ :=
      FSBInv_run ops (FixedSizeBlockAllocator.new.init HEAP_START HEAP_SIZE)
        [] hwf FSBInv_initial
    have hfoot := h5.sublist
      ((List.sublist_append_right _ _).trans (List.sublist_append_right _ _))
    exact PD_live_of_PD_foot hfoot

/-- Closed witness for `live_allocations_are_pairwise_disjoint`: a concrete
sequence — two allocations, a free, then another allocation — leaves
pairwise-disjoint live ranges under all three strategies. -/
theorem live_allocations_pairwise_disjoint_witness :
    PD (((BumpAllocator.init HEAP_START HEAP_SIZE).run []
      [Op.alloc 8 8, Op.alloc 100 4, Op.free 1, Op.alloc 32 32]).2.map
        liveRange) ∧
    PD ((LinkedListAllocator.run
      (LinkedListAllocator.init HEAP_START HEAP_SIZE) []
      [Op.alloc 8 8, Op.alloc 100 4, Op.free 1, Op.alloc 32 32]).2.map
        liveRange) ∧
    PD (((FixedSizeBlockAllocator.new.init HEAP_START HEAP_SIZE).run []
      [Op.alloc 8 8, Op.alloc 100 4, Op.free 1, Op.alloc 32 32]).2.map
        liveRange) := by
  obtain ⟨hb, hl, hf⟩ := live_allocations_are_pairwise_disjoint
  have hwf : ∀ op ∈ [Op.alloc 8 8, Op.alloc 100 4, Op.free 1,
      Op.alloc 32 32], op.WF := by
    intro op hop
    fin_cases hop
    · exact ⟨3, by norm_num, rfl⟩
    · exact ⟨2, by norm_num, rfl⟩
    · trivial
    · exact ⟨5, by norm_num, rfl⟩
  exact ⟨hb _ hwf, hl _ hwf, hf _ hwf⟩

end RustOS
